import Mathlib

/-!
Verification development for the payment-identifier engine of the electrum
repository (src/electrum/payment_identifier.py).  Strings are modelled as
lists of characters; Python integers as Lean integers; Python Decimal
values as exact sign/mantissa/scale triples.  External collaborators that
live outside the analysed file (address codec, invoice codec, lnurl
helpers, regular-expression helpers) are supplied as an explicit context
of oracle functions, matching the specification's description of them as
opaque collaborators.
-/

namespace Electrum

/-- Strings of the embedding: Python `str` values as lists of characters. -/
abbrev Str := List Char

/-- Decidable equality for result values. -/
instance {ε α : Type} [DecidableEq ε] [DecidableEq α] : DecidableEq (Except ε α) := fun
  | .ok a, .ok b => if h : a = b then .isTrue (by rw [h]) else .isFalse (by simp [h])
  | .ok _, .error _ => .isFalse (by simp)
  | .error _, .ok _ => .isFalse (by simp)
  | .error e, .error f => if h : e = f then .isTrue (by rw [h]) else .isFalse (by simp [h])

/-! ## Character classes (ASCII, via code points) -/

/-- ASCII decimal digit 0-9. -/
def isDigitC (c : Char) : Bool := 48 ≤ c.toNat && c.toNat ≤ 57

/-- ASCII uppercase letter. -/
def isUpperC (c : Char) : Bool := 65 ≤ c.toNat && c.toNat ≤ 90

/-- ASCII lowercase letter. -/
def isLowerC (c : Char) : Bool := 97 ≤ c.toNat && c.toNat ≤ 122

/-- ASCII letter. -/
def isAlphaC (c : Char) : Bool := isUpperC c || isLowerC c

/-- ASCII letter or digit. -/
def isAlnumC (c : Char) : Bool := isAlphaC c || isDigitC c

/-- Whitespace characters stripped by Python str.strip(): space, tab,
newline, carriage return, vertical tab, form feed (ASCII model). -/
def isPySpaceC (c : Char) : Bool :=
  c.toNat = 32 || c.toNat = 9 || c.toNat = 10 || c.toNat = 13 || c.toNat = 11 || c.toNat = 12

/-- Hexadecimal digit (either case), as accepted by percent-decoding. -/
def isHexC (c : Char) : Bool :=
  isDigitC c || (65 ≤ c.toNat && c.toNat ≤ 70) || (97 ≤ c.toNat && c.toNat ≤ 102)

/-- Numeric value of a hexadecimal digit. -/
def hexVal (c : Char) : ℕ :=
  if isDigitC c then c.toNat - 48
  else if 65 ≤ c.toNat && c.toNat ≤ 70 then c.toNat - 55
  else c.toNat - 87

/-- Numeric value of a decimal digit character. -/
def digitVal (c : Char) : ℕ := c.toNat - 48

/-- Decimal digit character for a value below ten. -/
def digitChar (d : ℕ) : Char := Char.ofNat (48 + d)

/-- Uppercase hexadecimal digit character for a value below sixteen. -/
def hexUpper (d : ℕ) : Char := if d < 10 then Char.ofNat (48 + d) else Char.ofNat (55 + d)

/-- ASCII lowercasing of one character, as Python str.lower() on ASCII. -/
def lowerC (c : Char) : Char :=
  if 65 ≤ c.toNat && c.toNat ≤ 90 then Char.ofNat (c.toNat + 32) else c

/-- ASCII lowercasing of a string. -/
def lowerStr (s : Str) : Str := s.map lowerC

/-! ## String helpers -/

/-- Python str.strip(): drop leading and trailing whitespace. -/
def pyStrip (s : Str) : Str :=
  ((s.dropWhile isPySpaceC).reverse.dropWhile isPySpaceC).reverse

/-- Split a string at every occurrence of a separator character, keeping
empty segments, as Python str.split(sep). -/
def splitOnChar (sep : Char) : Str → List Str
  | [] => [[]]
  | c :: r =>
    match splitOnChar sep r with
    | [] => [[c]]
    | s :: ss => if c = sep then [] :: s :: ss else (c :: s) :: ss

/-- Break a string at the first character satisfying a predicate: the part
before it, and (when found) the part after it. -/
def breakAt (p : Char → Bool) : Str → Str × Option Str
  | [] => ([], none)
  | c :: r =>
    if p c then ([], some r)
    else
      let (a, b) := breakAt p r
      (c :: a, b)

/-- Break a string at the last occurrence of a character. -/
def breakAtLast (ch : Char) (s : Str) : Option (Str × Str) :=
  match breakAt (· = ch) s.reverse with
  | (a, some b) => some (b.reverse, a.reverse)
  | (_, none) => none

/-- Python str.split() with no argument: whitespace-separated words. -/
def pyWords (s : Str) : List Str :=
  ((splitOnChar ' ' ((s.map (fun c => if isPySpaceC c then ' ' else c))))).filter (· ≠ [])

/-! ## Decimal digit strings and exact Decimal values -/

/-- Little-endian decimal digits of a natural number, with explicit fuel so
that the definition is structurally recursive and kernel-evaluable. -/
def natDigitsLE : ℕ → ℕ → List ℕ
  | _, 0 => []
  | 0, _ + 1 => []
  | f + 1, n + 1 => ((n + 1) % 10) :: natDigitsLE f ((n + 1) / 10)

/-- Little-endian decimal digits of a natural number. -/
def natLE (n : ℕ) : List ℕ := natDigitsLE n n

/-- Value of a little-endian decimal digit list. -/
def valLE (l : List ℕ) : ℕ := l.foldr (fun d a => d + 10 * a) 0

/-- Big-endian decimal rendering of a natural number. -/
def natBE (n : ℕ) : Str := if n = 0 then ['0'] else ((natLE n).map digitChar).reverse

/-- Value of a big-endian string of decimal digit characters. -/
def digitsValBE (s : Str) : ℕ := s.foldl (fun a c => 10 * a + digitVal c) 0

/-- Exact value of a Python Decimal literal: sign, mantissa and scale,
denoting (-1)^neg * m / 10^e.  Kept unnormalised so that all arithmetic
used by the embedding stays in ℕ. -/
structure PyDec where
  neg : Bool
  m : ℕ
  e : ℕ
  deriving DecidableEq, Repr

/-- Parse a plain decimal literal (optional minus sign, digits, at most one
dot) into an exact value; anything else is rejected.  Models the plain
decimal forms accepted for amounts per spec section 4.2 (the Decimal
constructor is part of the language runtime, outside the analysed file). -/
def decimalOfChars (s : Str) : Option PyDec :=
  let neg : Bool := s.headD ' ' = '-'
  let body := if neg then s.tail else s
  match splitOnChar '.' body with
  | [a] =>
    if a ≠ [] && a.all isDigitC then some ⟨neg, digitsValBE a, 0⟩ else none
  | [a, f] =>
    if (a ++ f) ≠ [] && a.all isDigitC && f.all isDigitC then
      some ⟨neg, digitsValBE (a ++ f), f.length⟩
    else none
  | _ => none

/-- Python int() truncation (toward zero) of an exact decimal value. -/
def decTruncInt (d : PyDec) : ℤ :=
  if d.neg then -((d.m / 10 ^ d.e : ℕ) : ℤ) else ((d.m / 10 ^ d.e : ℕ) : ℤ)

/-- Comparison of an exact decimal value with a natural bound:
value strictly greater than the bound. -/
def decGtNat (d : PyDec) (bound : ℕ) : Bool :=
  !d.neg && decide (bound * 10 ^ d.e < d.m)

/-- Python int(str): optional sign and decimal digits (surrounding
whitespace stripped), else failure. -/
def pyIntOfChars (s : Str) : Option ℤ :=
  let t := pyStrip s
  match t with
  | '-' :: ds => if ds ≠ [] && ds.all isDigitC then some (-(digitsValBE ds : ℤ)) else none
  | '+' :: ds => if ds ≠ [] && ds.all isDigitC then some ((digitsValBE ds : ℤ)) else none
  | ds => if ds ≠ [] && ds.all isDigitC then some ((digitsValBE ds : ℤ)) else none

/-! ## Percent-encoding (urllib.parse.quote / unquote_plus, ASCII model) -/

/-- Characters urllib.parse.quote leaves unescaped with its default safe
set: letters, digits, underscore, dot, hyphen, tilde and slash. -/
def quoteSafeC (c : Char) : Bool :=
  isAlnumC c || c = '_' || c = '.' || c = '-' || c = '~' || c = '/'

/-- Percent-encoding of one character (ASCII model). -/
def quoteChar (c : Char) : Str :=
  if quoteSafeC c then [c]
  else ['%', hexUpper (c.toNat / 16), hexUpper (c.toNat % 16)]

/-- urllib.parse.quote on an ASCII string. -/
def quotePy (s : Str) : Str := s.foldr (fun c acc => quoteChar c ++ acc) []

/-- urllib.parse.unquote_plus on an ASCII string: plus becomes space and
percent escapes are decoded; malformed escapes stay literal. -/
def unquotePlus : Str → Str
  | [] => []
  | '+' :: r => ' ' :: unquotePlus r
  | '%' :: a :: b :: r2 =>
    if isHexC a && isHexC b then Char.ofNat (16 * hexVal a + hexVal b) :: unquotePlus r2
    else '%' :: unquotePlus (a :: b :: r2)
  | c :: r => c :: unquotePlus r

/-! ## Query-string parsing (urllib.parse.parse_qs, modern separator rules) -/

/-- urllib.parse.parse_qsl with default options: split the query on
ampersands; skip empty pairs, pairs without an equals sign and pairs whose
raw value is empty; percent-decode names and values. -/
def parse_qsl (q : Str) : List (Str × Str) :=
  (splitOnChar '&' q).foldr
    (fun pair acc =>
      if pair = [] then acc
      else
        match breakAt (· = '=') pair with
        | (_, none) => acc
        | (n, some v) => if v = [] then acc else (unquotePlus n, unquotePlus v) :: acc)
    []

/-- Append a value to the entry of a key in a grouped association list,
creating the entry at the end when the key is new. -/
def groupAdd : List (Str × List Str) → Str → Str → List (Str × List Str)
  | [], k, v => [(k, [v])]
  | (k2, vs) :: r, k, v =>
    if k2 = k then (k2, vs ++ [v]) :: r else (k2, vs) :: groupAdd r k v

/-- urllib.parse.parse_qs: group the parsed pairs by key, preserving first
insertion order. -/
def qsGroup (l : List (Str × Str)) : List (Str × List Str) :=
  l.foldl (fun acc kv => groupAdd acc kv.1 kv.2) []

/-! ## Insertion-ordered dictionaries (Python dict model) -/

/-- Dictionary lookup. -/
def aget {α : Type} : List (Str × α) → Str → Option α
  | [], _ => none
  | (k2, v) :: r, k => if k2 = k then some v else aget r k

/-- Dictionary update: replace in place, or append a new key at the end,
matching Python dict assignment order semantics. -/
def aset {α : Type} : List (Str × α) → Str → α → List (Str × α)
  | [], k, v => [(k, v)]
  | (k2, v2) :: r, k, v =>
    if k2 = k then (k2, v) :: r else (k2, v2) :: aset r k v

/-! ## URL splitting (urllib.parse.urlparse model) -/

/-- Components produced by urllib.parse.urlparse. -/
structure UrlParts where
  scheme : Str
  netloc : Str
  path : Str
  params : Str
  query : Str
  fragment : Str
  deriving DecidableEq, Repr

/-- Characters allowed in a URL scheme after the first letter. -/
def schemeCharB (c : Char) : Bool := isAlnumC c || c = '+' || c = '-' || c = '.'

/-- urllib.parse.urlsplit: scheme (detected and lowercased first), then
netloc after a double slash, then fragment, then query. -/
def urlsplitM (u : Str) : UrlParts :=
  let (scheme, rest) :=
    match breakAt (· = ':') u with
    | (s, some r) =>
      if s ≠ [] && isAlphaC (s.headD ' ') && s.all schemeCharB then (lowerStr s, r)
      else ([], u)
    | (_, none) => ([], u)
  let (netloc, rest2) :=
    if rest.take 2 = ['/', '/'] then
      let nl := (rest.drop 2).takeWhile (fun c => !(c = '/' || c = '?' || c = '#'))
      (nl, (rest.drop 2).drop nl.length)
    else ([], rest)
  let (rest3, frag) :=
    match breakAt (· = '#') rest2 with
    | (a, some f) => (a, f)
    | (a, none) => (a, [])
  let (path, query) :=
    match breakAt (· = '?') rest3 with
    | (a, some q) => (a, q)
    | (a, none) => (a, [])
  ⟨scheme, netloc, path, [], query, frag⟩

/-- urllib.parse's parameter split of a path: the part after the first
semicolon following the last slash (or the first semicolon when no slash),
only invoked when a semicolon is present. -/
def splitParamsM (p : Str) : Str × Str :=
  if '/' ∈ p then
    match breakAtLast '/' p with
    | some (pre, post) =>
      (match breakAt (· = ';') post with
       | (x, some y) => (pre ++ '/' :: x, y)
       | (_, none) => (p, []))
    | none => (p, [])
  else
    match breakAt (· = ';') p with
    | (x, some y) => (x, y)
    | (_, none) => (p, [])

/-- urllib.parse.urlparse: urlsplit plus the parameter split on the path. -/
def urlparseM (u : Str) : UrlParts :=
  let s := urlsplitM u
  if ';' ∈ s.path then
    let (p, par) := splitParamsM s.path
    { s with path := p, params := par }
  else s

/-! ## Domain model: values, errors and the oracle context -/

/-- Values stored in the decoded BIP21 field map: Python strings or the
integers that the amount/time/exp fields are converted to. -/
inductive PyVal where
  | s (v : Str)
  | i (n : ℤ)
  deriving DecidableEq, Repr

/-- Python truthiness of a field-map value. -/
def pyTruthy : PyVal → Bool
  | .s v => v ≠ []
  | .i n => n ≠ 0

/-- InvalidBitcoinURI failure cases of parse_bip21_URI, by source line. -/
inductive Bip21Error where
  | notAddress
  | notBitcoinURI
  | duplicateKey (k : Str)
  | invalidAddress (a : Str)
  | amountParseFail
  | amountOutOfBounds
  | timeParseFail
  | expParseFail
  | sigParseFail
  | lightningDecodeFail
  | inconsistentAmount
  | inconsistentAddress
  deriving DecidableEq, Repr

/-- Exceptions other than InvalidBitcoinURI that the analysed code can
raise; these are not caught by the classifier's except clause.
nameErrorUnderscore: the module imports of payment_identifier.py
(lines 1-16) bind no name for the i18n function, so evaluating the
expression at line 255 raises NameError.  typeErrorIntNone: int(None) when
an embedded invoice carries no amount.  typeErrorOther: arithmetic on a
string field value (unreachable for field maps built by the decoder). -/
inductive PyExc where
  | nameErrorUnderscore
  | typeErrorIntNone
  | typeErrorOther
  deriving DecidableEq, Repr

/-- Decoded data of an embedded bolt11 invoice, as used by the decoder:
the integer satoshi amount produced by int() of get_amount_sat (none when
the invoice carries no amount), and the on-chain fallback address. -/
structure LnAddr where
  amount_sat : Option ℤ
  fallback : Option Str
  deriving DecidableEq, Repr

/-- Round-1 data of a Lightning pointer (LNURL6Data of the lnurl module,
outside the analysed file): inclusive sendable bounds in satoshis and the
callback endpoint, per spec section 6. -/
structure LNURL6Data where
  min_sendable_sat : ℤ
  max_sendable_sat : ℤ
  callback_url : Str
  deriving DecidableEq, Repr

/-- Oracle context bundling the collaborators the analysed file imports
from elsewhere in the repository or the runtime (spec section 6 lists them
as external): the address codec, the invoice and lnurl codecs, the
max-spend sentinel recogniser, the two regular expressions of the
classifier, the configured decimal point, and the round-2 network
callback.  re_alias_group returns the bracketed group when the
name<address> pattern matches; re_email_match decides the email-like
pattern; from_bech32 returns the decoded invoice's amount (none outer:
decoding raised; none inner: invoice without amount); callback_lnurl
returns the pr field of the callback response (error: LNURLError). -/
structure Ctx where
  is_address : Str → Bool
  address_to_script : Str → List ℕ
  lndecode : Str → Option LnAddr
  decode_lnurl : Str → Option Str
  base_decode58 : Str → Option Str
  re_email_match : Str → Bool
  re_alias_group : Str → Option Str
  decimal_point : ℕ
  is_max_spend : Str → Bool
  from_bech32 : Str → Option (Option ℤ)
  callback_lnurl : Str → ℤ → Except Str (Option Str)

/-- Result type of the BIP21 decoder: either an InvalidBitcoinURI error or
an uncaught exception, or the decoded field map. -/
abbrev BipResult := Except (Bip21Error ⊕ PyExc) (List (Str × PyVal))

/-! ## BIP21 URI decoding (parse_bip21_URI, lines 41-121) -/

/-- URI scheme constant of the source. -/
def BITCOIN_BIP21_URI_SCHEME : Str := "bitcoin".data

/-- URI scheme constant of the source. -/
def LIGHTNING_URI_SCHEME : Str := "lightning".data

/-- Supply cap in satoshis: TOTAL_COIN_SUPPLY_LIMIT_IN_BTC * COIN with the
constants 21000000 and 100000000 of the bitcoin module. -/
def capSat : ℕ := 21000000 * 100000000

/-- Anchored match of the amount shorthand pattern (digits and dots, then
X, then one digit) at the start of the amount field, line 76: the mantissa
group and the exponent digit.  The mantissa run is the maximal prefix of
mantissa characters since X is not one of them. -/
def amountXMatch (am : Str) : Option (Str × ℕ) :=
  let g1 := am.takeWhile (fun c => isDigitC c || c = '.')
  match am.drop g1.length with
  | x :: d :: _ =>
    if x = 'X' && isDigitC d && g1 ≠ [] then some (g1, digitVal d) else none
  | _ => none

/-- Amount field conversion, lines 74-84: shorthand mantissa*10^(d-8) or
plain Decimal times COIN, the supply-cap bound, and int() truncation.  An
out-of-bounds amount raises inside the try block and is re-reported as a
parse failure of the amount field; both are InvalidBitcoinURI. -/
def parseAmountField (am : Str) : Except (Bip21Error ⊕ PyExc) ℤ :=
  let dec : Option PyDec :=
    match amountXMatch am with
    | some (g1, d8) => (decimalOfChars g1).map (fun dd => ⟨dd.neg, dd.m * 10 ^ d8, dd.e + 8⟩)
    | none => (decimalOfChars am).map (fun dd => ⟨dd.neg, dd.m * 10 ^ 8, dd.e⟩)
  match dec with
  | none => .error (.inl .amountParseFail)
  | some dd =>
    if decGtNat dd capSat then .error (.inl .amountOutOfBounds)
    else .ok (decTruncInt dd)

/-- Address field step, lines 69-72: a non-empty path must validate as an
address and is stored under the address key. -/
def bip21AddrStep (ctx : Ctx) (address : Str) (out : List (Str × PyVal)) : BipResult :=
  if address ≠ [] then
    if ctx.is_address address then .ok (aset out "address".data (.s address))
    else .error (.inl (.invalidAddress address))
  else .ok out

/-- Amount field step, lines 73-86: convert the amount value in place. -/
def bip21AmountStep (out : List (Str × PyVal)) : BipResult :=
  match aget out "amount".data with
  | some (.s am) =>
    match parseAmountField am with
    | .error e => .error e
    | .ok n => .ok (aset out "amount".data (.i n))
  | some (.i _) => .ok out
  | none => .ok out

/-- Message field step, lines 87-89: duplicate the message under memo. -/
def bip21MessageStep (out : List (Str × PyVal)) : List (Str × PyVal) :=
  match aget out "message".data with
  | some v => aset (aset out "message".data v) "memo".data v
  | none => out

/-- Integer field step for time and exp, lines 90-99. -/
def bip21IntStep (key : Str) (err : Bip21Error) (out : List (Str × PyVal)) : BipResult :=
  match aget out key with
  | some (.s v) =>
    match pyIntOfChars v with
    | none => .error (.inl err)
    | some n => .ok (aset out key (.i n))
  | some (.i _) => .ok out
  | none => .ok out

/-- Signature field step, lines 100-104: base58-decode to hex. -/
def bip21SigStep (ctx : Ctx) (out : List (Str × PyVal)) : BipResult :=
  match aget out "sig".data with
  | some (.s sg) =>
    match ctx.base_decode58 sg with
    | none => .error (.inl .sigParseFail)
    | some hx => .ok (aset out "sig".data (.s hx))
  | some (.i _) => .ok out
  | none => .ok out

/-- Lightning field step, lines 105-119: decode the embedded invoice, then
check amount consistency (only when the stored amount is truthy; the
tolerance is one satoshi) and fallback-address consistency. -/
def bip21LightningStep (ctx : Ctx) (out : List (Str × PyVal)) : BipResult :=
  match aget out "lightning".data with
  | none => .ok out
  | some (.i _) => .error (.inr .typeErrorOther)
  | some (.s lf) =>
    match ctx.lndecode lf with
    | none => .error (.inl .lightningDecodeFail)
    | some lnaddr =>
      let amountCheck : Except (Bip21Error ⊕ PyExc) Unit :=
        match aget out "amount".data with
        | some av =>
          if pyTruthy av then
            match av with
            | .i n =>
              (match lnaddr.amount_sat with
               | none => .error (.inr .typeErrorIntNone)
               | some la => if 1 < (n - la).natAbs then .error (.inl .inconsistentAmount) else .ok ())
            | .s _ => .error (.inr .typeErrorOther)
          else .ok ()
        | none => .ok ()
      match amountCheck with
      | .error e => .error e
      | .ok () =>
        match aget out "address".data, lnaddr.fallback with
        | some (.s a), some fb =>
          if a ≠ [] && fb ≠ [] then
            if fb ≠ a then .error (.inl .inconsistentAddress) else .ok out
          else .ok out
        | _, _ => .ok out

/-- Field-map processing of the decoder after query parsing, lines 64-121:
the duplicate-key scan in dict order, then the field steps in source
order. -/
def bip21QueryStage (ctx : Ctx) (address : Str) (q : Str) : BipResult :=
  let pq := qsGroup (parse_qsl q)
  match pq.find? (fun kv => kv.2.length ≠ 1) with
  | some kv => .error (.inl (.duplicateKey kv.1))
  | none =>
    let out0 : List (Str × PyVal) := pq.map (fun kv => (kv.1, .s (kv.2.headD [])))
    match bip21AddrStep ctx address out0 with
    | .error e => .error e
    | .ok out1 =>
      match bip21AmountStep out1 with
      | .error e => .error e
      | .ok out2 =>
        let out3 := bip21MessageStep out2
        match bip21IntStep "time".data .timeParseFail out3 with
        | .error e => .error e
        | .ok out4 =>
          match bip21IntStep "exp".data .expParseFail out4 with
          | .error e => .error e
          | .ok out5 =>
            match bip21SigStep ctx out5 with
            | .error e => .error e
            | .ok out6 => bip21LightningStep ctx out6

/-- parse_bip21_URI, lines 41-121.  A string without a colon must be a
bare address.  Otherwise the URI is split; the scheme must be the bitcoin
scheme.  The query is taken from the split result (with the standard
library's urlparse the path never contains a question mark, so the
fallback branch of lines 58-60 collapses to the standard one). -/
def parse_bip21_URI (ctx : Ctx) (uri : Str) : BipResult :=
  if ':' ∉ uri then
    if ctx.is_address uri then .ok [("address".data, .s uri)]
    else .error (.inl .notAddress)
  else
    let u := urlparseM uri
    if lowerStr u.scheme ≠ BITCOIN_BIP21_URI_SCHEME then .error (.inl .notBitcoinURI)
    else bip21QueryStage ctx u.path u.query

/-! ## BIP21 URI creation (create_bip21_uri, lines 125-149) -/

/-- Rendering of a satoshi amount as a plain whole-unit decimal with
trailing zeros stripped.  Modelled from the spec: format(n) in spec
section 8 renders the amount in the plain decimal notation the amount
grammar of section 4.2 accepts (format_satoshis_plain lives in the util
module, outside the analysed file). -/
def format_satoshis_plain (n : ℤ) : Str :=
  let core := fun (m : ℕ) =>
    let ip := m / 10 ^ 8
    let fpLE := natLE (m % 10 ^ 8) ++ List.replicate (8 - (natLE (m % 10 ^ 8)).length) 0
    let f := fpLE.dropWhile (· = 0)
    natBE ip ++ (if f = [] then [] else '.' :: (f.map digitChar).reverse)
  if n < 0 then '-' :: core n.natAbs else core n.toNat

/-- create_bip21_uri, lines 125-149: empty result for an invalid address;
amount and message only when truthy; extra query parameters with the
quote-stability check of line 137 (failure there raises a plain
Exception); assembly per urlunparse with empty netloc, params and
fragment. -/
def create_bip21_uri (ctx : Ctx) (addr : Str) (amount_sat : Option ℤ) (message : Option Str)
    (extra_query_params : List (Str × Str) := []) : Except Unit Str :=
  if !ctx.is_address addr then .ok []
  else
    let q1 : List Str :=
      match amount_sat with
      | some n => if n ≠ 0 then ["amount=".data ++ format_satoshis_plain n] else []
      | none => []
    let q2 : List Str :=
      match message with
      | some m => if m ≠ [] then ["message=".data ++ quotePy m] else []
      | none => []
    let qe : Option (List Str) :=
      extra_query_params.foldr
        (fun kv acc =>
          match acc with
          | none => none
          | some l => if kv.1 ≠ quotePy kv.1 then none else some ((kv.1 ++ '=' :: quotePy kv.2) :: l))
        (some [])
    match qe with
    | none => .error ()
    | some qel =>
      let query := List.intercalate ['&'] (q1 ++ q2 ++ qel)
      .ok (BITCOIN_BIP21_URI_SCHEME ++ ':' :: addr ++ (if query = [] then [] else '?' :: query))

/-- is_uri, lines 153-158. -/
def is_uri (data : Str) : Bool :=
  let d := lowerStr data
  (LIGHTNING_URI_SCHEME ++ [':']).isPrefixOf d || (BITCOIN_BIP21_URI_SCHEME ++ [':']).isPrefixOf d

/-! ## Classifier data (PaymentIdentifier, lines 162-268) -/

/-- Amounts of batch outputs: an integer, or the max-spend string the
amount grammar returns unchanged. -/
inductive PyAmount where
  | int (n : ℤ)
  | maxStr (s : Str)
  deriving DecidableEq, Repr

/-- Output of one batch line (PartialTxOutput of the transaction module):
the script bytes (none when the silent address/script fallthrough of
parse_output returns no value) and the amount. -/
structure PartialTxOutput where
  scriptpubkey : Option (List ℕ)
  value : PyAmount
  deriving DecidableEq, Repr

/-- Exceptions recorded for a failed batch line.  notTwoFields: the
unpacking at line 312 fails.  amountEmpty: empty amount, line 348.
nameErrorDecimal: for a malformed amount the except clause of line 354
reads the unbound module name decimal (only the Decimal class is
imported), so the InvalidOperation raised by the Decimal constructor
surfaces as a NameError, still caught by the per-line handler. -/
inductive LineExc where
  | notTwoFields
  | amountEmpty
  | nameErrorDecimal
  deriving DecidableEq, Repr

/-- PayToLineError, lines 165-169, with field order of the source. -/
structure PayToLineError where
  line_content : Str
  exc : LineExc
  idx : ℕ
  is_multiline : Bool
  deriving DecidableEq, Repr

/-- Error channel of the identifier (self.error): the stringified batch
error list of line 307, the Lightning decode message of line 246, the
unknown-identifier exception object of line 268, or the round-2 callback
failure of line 514. -/
inductive PIError where
  | multilineErrs (errs : List PayToLineError)
  | lightningInvoiceMsg
  | unknownIdentifier (t : Str)
  | lnurlRequestError (msg : Str)
  deriving DecidableEq, Repr

/-- Mutable state of a PaymentIdentifier, lines 186-209: the family tag
and the per-family slots, all initially unset. -/
structure PIState where
  _type : Option Str := none
  error : Option PIError := none
  warning : Option Str := none
  multiline_outputs : Option (List PartialTxOutput) := none
  bolt11 : Option Str := none
  bip21 : Option (List (Str × PyVal)) := none
  spk : Option (List ℕ) := none
  openalias : Option Str := none
  bip70 : Option PyVal := none
  lnurl : Option Str := none
  lnurl_data : Option LNURL6Data := none
  deriving DecidableEq, Repr

/-- Freshly constructed identifier state before parse runs. -/
def initState : PIState := {}

/-- is_valid, lines 211-212: truthiness of the family tag. -/
def is_valid (st : PIState) : Bool :=
  match st._type with
  | some s => s ≠ []
  | none => false

/-- maybe_extract_lightning_payment_identifier, lines 18-26. -/
def maybe_extract_lightning_payment_identifier (data : Str) : Option Str :=
  let d0 := lowerStr (pyStrip data)
  let d := if (LIGHTNING_URI_SCHEME ++ ':' :: "ln".data).isPrefixOf d0
    then d0.drop (LIGHTNING_URI_SCHEME.length + 1) else d0
  if ("ln".data).isPrefixOf d then some d else none

/-! ## Amount / address / line parsing of the classifier, lines 310-362 -/

/-- parse_amount, lines 345-355: strip, reject empty, return a recognised
max-spend token unchanged, else truncate 10^decimal_point times the
Decimal value. -/
def parse_amount (ctx : Ctx) (x : Str) : Except LineExc PyAmount :=
  let x := pyStrip x
  if x = [] then .error .amountEmpty
  else if ctx.is_max_spend x then .ok (.maxStr x)
  else
    match decimalOfChars x with
    | none => .error .nameErrorDecimal
    | some d => .ok (.int (decTruncInt ⟨d.neg, d.m * 10 ^ ctx.decimal_point, d.e⟩))

/-- parse_address, lines 357-362: strip, take the bracketed group of the
alias pattern when it matches, and require address validity (the assert
failure is an exception to the caller). -/
def parse_address (ctx : Ctx) (line : Str) : Option Str :=
  let r := pyStrip line
  let a := (ctx.re_alias_group r).getD r
  if ctx.is_address a then some a else none

/-- parse_output, lines 319-332: try the address route; on failure try the
script route, which succeeds (with an empty script) only for an input
without words, because for any word the body of parse_script reads the
unbound module names opcodes or construct_script and the resulting
NameError is swallowed; when both routes fail the function falls off the
end and returns no value. -/
def parse_output (ctx : Ctx) (x : Str) : Option (List ℕ) :=
  match parse_address ctx x with
  | some addr => some (ctx.address_to_script addr)
  | none => if pyWords x = [] then some [] else none

/-- parse_address_and_amount, lines 310-317: exactly two comma-separated
fields; the destination is resolved first (never raising), then the
amount. -/
def parse_address_and_amount (ctx : Ctx) (line : Str) : Except LineExc PartialTxOutput :=
  match splitOnChar ',' line with
  | [x, y] =>
    let spkv := parse_output ctx x
    match parse_amount ctx y with
    | .error e => .error e
    | .ok amt => .ok ⟨spkv, amt⟩
  | _ => .error .notTwoFields

/-! ## Multiline batch parsing, lines 285-308 -/

/-- Max-spend recognition applied to an output's value as at line 302: an
integer amount is never the sentinel; a kept string is tested again. -/
def pyAmountMax (ctx : Ctx) : PyAmount → Bool
  | .int _ => false
  | .maxStr s => ctx.is_max_spend s

/-- Integer value of an output amount for the total accumulation of line
305 (only reached for integer amounts). -/
def pyAmountInt : PyAmount → ℤ
  | .int n => n
  | .maxStr _ => 0

/-- Internal state computed by the loop of _parse_as_multiline, lines
290-305, plus the multi-line flag of line 289. -/
structure MLRes where
  outputs : List PartialTxOutput
  errors : List PayToLineError
  is_max : Bool
  total : ℤ
  is_multiline : Bool
  deriving DecidableEq, Repr

/-- Loop of _parse_as_multiline over the indexed non-empty lines: a failed
line appends an error and continues; a parsed line appends its output and
updates the max flag or the running total. -/
def mlLoop (ctx : Ctx) : ℕ → List Str → MLRes
  | _, [] => ⟨[], [], false, 0, false⟩
  | i, l :: ls =>
    let rest := mlLoop ctx (i + 1) ls
    match parse_address_and_amount ctx l with
    | .error e => { rest with errors := ⟨pyStrip l, e, i, true⟩ :: rest.errors }
    | .ok o =>
      if pyAmountMax ctx o.value then
        { rest with outputs := o :: rest.outputs, is_max := true }
      else
        { rest with outputs := o :: rest.outputs, total := rest.total + pyAmountInt o.value }

/-- _parse_as_multiline, lines 285-308: split on newlines, drop empty
lines, run the loop; the caller receives the outputs (line 308) while the
error list only reaches the identifier's error field. -/
def _parse_as_multiline (ctx : Ctx) (text : Str) : MLRes :=
  let lines := (splitOnChar '\n' text).filter (· ≠ [])
  let r := mlLoop ctx 0 lines
  { r with is_multiline := decide (1 < lines.length) }

/-- Value the batch parser returns to its caller: only the outputs list
(line 308). -/
def multilineReturn (ctx : Ctx) (text : Str) : List PartialTxOutput :=
  (_parse_as_multiline ctx text).outputs

/-! ## Classifier, lines 232-268 -/

/-- Truncated echo of an unrecognised input, line 267. -/
def truncatedEcho (t : Str) : Str :=
  if 100 < t.length then t.take 100 ++ "...".data else t

/-- Tail of the classifier after the script branch: the email-like alias
pattern, else the unknown-identifier error. -/
def parseAliasOrFail (ctx : Ctx) (st : PIState) (t : Str) : PIState :=
  if ctx.re_email_match t then { st with _type := some "alias".data, openalias := some t }
  else { st with error := some (.unknownIdentifier (truncatedEcho t)) }

/-- parse, lines 232-268.  Empty stripped input returns untouched.  The
batch parser runs first and records its error summary on the state (line
307) whenever the input is multi-line or produced outputs; a non-empty
output list classifies as multiline.  Then the Lightning, bitcoin-URI,
script and alias branches in source order.  A URI rejected by the decoder
reaches line 255, whose i18n call raises NameError (the module never
imports that name), so the classifier itself raises; any non-
InvalidBitcoinURI exception of the decoder also propagates. -/
def parse (ctx : Ctx) (st : PIState) (text : Str) : Except PyExc PIState :=
  let t := pyStrip text
  if t = [] then .ok st
  else
    let ml := _parse_as_multiline ctx t
    let st1 :=
      if ml.is_multiline || !ml.outputs.isEmpty then
        { st with error := if ml.errors.isEmpty then none else some (.multilineErrs ml.errors) }
      else st
    if !ml.outputs.isEmpty then
      .ok { st1 with _type := some "multiline".data, multiline_outputs := some ml.outputs }
    else
      match maybe_extract_lightning_payment_identifier t with
      | some iol =>
        if ("lnurl".data).isPrefixOf iol then
          let st2 := { st1 with _type := some "lnurl".data }
          match ctx.decode_lnurl iol with
          | none => .ok { st2 with error := some .lightningInvoiceMsg }
          | some lnurl => .ok { st2 with lnurl := some lnurl }
        else .ok { st1 with _type := some "bolt11".data, bolt11 := some iol }
      | none =>
        if (BITCOIN_BIP21_URI_SCHEME ++ [':']).isPrefixOf (lowerStr t) then
          match parse_bip21_URI ctx t with
          | .error (.inl _) => .error .nameErrorUnderscore
          | .error (.inr e) => .error e
          | .ok out =>
            .ok { st1 with _type := some "bip21".data, bip21 := some out,
                           bip70 := aget out "r".data }
        else
          match parse_output ctx t with
          | some spkv =>
            if spkv ≠ [] then .ok { st1 with _type := some "spk".data, spk := some spkv }
            else .ok (parseAliasOrFail ctx st1 t)
          | none => .ok (parseAliasOrFail ctx st1 t)

/-! ## Round 2 (round_2, lines 501-524) -/

/-- Exceptions round_2 can raise (re-raised by the log_exceptions
decorator).  attributeErrorNoneData: attribute access on an unset
lnurl_data.  attributeErrorUnderscoreData: the error f-string of line 506
reads self._lnurl_data, an attribute never assigned anywhere in the class,
so the out-of-range branch raises instead of recording its message.
typeErrorNoneAmount: comparison with an absent amount.  fromBech32Error:
Invoice.from_bech32 failed (or the response carried no pr field).
wrongAmountError: the plain Exception of line 520. -/
inductive R2Exc where
  | attributeErrorNoneData
  | attributeErrorUnderscoreData
  | typeErrorNoneAmount
  | fromBech32Error
  | wrongAmountError
  deriving DecidableEq, Repr

/-- round_2, lines 501-524, as outcome, final state and whether the
success callback ran.  A raised exception (first component error) leaves
the state exactly as it was; the LNURLError branch records the failure on
the error field and returns without the callback; the success path adopts
the returned invoice and runs the callback. -/
def round_2 (ctx : Ctx) (st : PIState) (amount_sat : Option ℤ) :
    Except R2Exc Unit × PIState × Bool :=
  match st.lnurl with
  | none => (.ok (), st, true)
  | some _ =>
    match st.lnurl_data with
    | none => (.error .attributeErrorNoneData, st, false)
    | some d =>
      match amount_sat with
      | none => (.error .typeErrorNoneAmount, st, false)
      | some amt =>
        if d.min_sendable_sat ≤ amt ∧ amt ≤ d.max_sendable_sat then
          match ctx.callback_lnurl d.callback_url (amt * 1000) with
          | .error e => (.ok (), { st with error := some (.lnurlRequestError e) }, false)
          | .ok none => (.error .fromBech32Error, st, false)
          | .ok (some pr) =>
            match ctx.from_bech32 pr with
            | none => (.error .fromBech32Error, st, false)
            | some invAmt =>
              if invAmt ≠ some amt then (.error .wrongAmountError, st, false)
              else (.ok (), { st with bolt11 := some pr }, true)
        else (.error .attributeErrorUnderscoreData, st, false)


/-! ## Basic character lemmas -/

/-- Characters with equal code points are equal. -/
theorem char_toNat_inj {a b : Char} (h : a.toNat = b.toNat) : a = b :=
  Char.ext (UInt32.eq_of_toBitVec_eq (BitVec.eq_of_toNat_eq h))

/-- Code point of a character built from a small code point. -/
theorem toNat_ofNat_small (n : ℕ) (h : n < 55296) : (Char.ofNat n).toNat = n := by
  have hv : Nat.isValidChar n := Or.inl h
  rw [Char.ofNat, dif_pos hv]
  simp [Char.ofNatAux, Char.toNat]
  rfl

/-- Rebuilding a character from its code point. -/
theorem ofNat_toNat_small (c : Char) (h : c.toNat < 55296) : Char.ofNat c.toNat = c := by
  apply char_toNat_inj
  exact toNat_ofNat_small _ h

/-- Code point of a decimal digit character. -/
theorem digitChar_toNat {d : ℕ} (h : d < 10) : (digitChar d).toNat = 48 + d := by
  apply toNat_ofNat_small
  omega

/-- Digit characters are digits. -/
theorem isDigitC_digitChar {d : ℕ} (h : d < 10) : isDigitC (digitChar d) = true := by
  simp [isDigitC, digitChar_toNat h]
  omega

/-- Value of a digit character. -/
theorem digitVal_digitChar {d : ℕ} (h : d < 10) : digitVal (digitChar d) = d := by
  simp [digitVal, digitChar_toNat h]

/-- Digit characters are distinct from any character with another code
point, stated for the separators the proofs need. -/
theorem digitChar_ne {d : ℕ} (h : d < 10) (c : Char) (hc : ¬(48 ≤ c.toNat ∧ c.toNat ≤ 57)) :
    digitChar d ≠ c := by
  intro he
  apply hc
  rw [← he, digitChar_toNat h]
  omega

/-- Digit predicate gives the code point interval. -/
theorem isDigitC_iff {c : Char} : isDigitC c = true ↔ 48 ≤ c.toNat ∧ c.toNat ≤ 57 := by
  simp [isDigitC]

/-! ## breakAt and splitOnChar lemmas -/

/-- breakAt finds nothing when no character satisfies the predicate. -/
theorem breakAt_eq_none {p : Char → Bool} {l : Str} (h : ∀ c ∈ l, p c = false) :
    breakAt p l = (l, none) := by
  induction l with
  | nil => rfl
  | cons c r ih =>
    have hc := h c (by simp)
    simp [breakAt, hc, ih (fun x hx => h x (by simp [hx]))]

/-- breakAt splits at the first satisfying character. -/
theorem breakAt_append {p : Char → Bool} {xs ys : Str} {c : Char}
    (hxs : ∀ x ∈ xs, p x = false) (hc : p c = true) :
    breakAt p (xs ++ c :: ys) = (xs, some ys) := by
  induction xs with
  | nil => simp [breakAt, hc]
  | cons x r ih =>
    have hx := hxs x (by simp)
    simp [breakAt, hx, ih (fun y hy => hxs y (by simp [hy]))]

/-- splitOnChar never returns an empty list of segments. -/
theorem splitOnChar_ne_nil (sep : Char) (l : Str) : splitOnChar sep l ≠ [] := by
  cases l with
  | nil => simp [splitOnChar]
  | cons c r =>
    simp only [splitOnChar]
    rcases hs : splitOnChar sep r with _ | ⟨s, ss⟩
    · simp
    · by_cases hc : c = sep <;> simp [hc]

/-- splitOnChar on a separator-free string. -/
theorem splitOnChar_not_mem {sep : Char} {l : Str} (h : sep ∉ l) :
    splitOnChar sep l = [l] := by
  induction l with
  | nil => rfl
  | cons c r ih =>
    have hc : c ≠ sep := fun he => h (by simp [he])
    have hr := ih (fun hm => h (by simp [hm]))
    simp only [splitOnChar, hr]
    simp [hc]

/-- splitOnChar peels the segment before the first separator. -/
theorem splitOnChar_append {sep : Char} {xs ys : Str} (h : sep ∉ xs) :
    splitOnChar sep (xs ++ sep :: ys) = xs :: splitOnChar sep ys := by
  induction xs with
  | nil =>
    simp only [List.nil_append, splitOnChar]
    rcases hs : splitOnChar sep ys with _ | ⟨s, ss⟩
    · exact absurd hs (splitOnChar_ne_nil sep ys)
    · simp
  | cons x r ih =>
    have hx : x ≠ sep := fun he => h (by simp [he])
    have hr := ih (fun hm => h (by simp [hm]))
    simp only [List.cons_append, splitOnChar, List.append_eq]
    rw [hr]
    simp [hx]


/-! ## Percent-encoding lemmas -/

/-- unquotePlus on the plain-character step. -/
theorem unquotePlus_cons_plain {c : Char} {r : Str} (h1 : c ≠ '+') (h2 : c ≠ '%') :
    unquotePlus (c :: r) = c :: unquotePlus r := by
  cases r with
  | nil => simp [unquotePlus, h1, h2]
  | cons a r2 =>
    cases r2 with
    | nil => simp [unquotePlus, h1, h2]
    | cons b r3 => simp [unquotePlus, h1, h2]

/-- unquotePlus is the identity on strings without plus or percent. -/
theorem unquotePlus_id {l : Str} (h : ∀ c ∈ l, c ≠ '+' ∧ c ≠ '%') :
    unquotePlus l = l := by
  induction l with
  | nil => rfl
  | cons c r ih =>
    have hc := h c (by simp)
    rw [unquotePlus_cons_plain hc.1 hc.2, ih (fun x hx => h x (by simp [hx]))]


/-- Hex value of an uppercase hex digit character. -/
theorem hexVal_hexUpper {d : ℕ} (h : d < 16) : hexVal (hexUpper d) = d := by
  interval_cases d <;> decide

/-- Uppercase hex digit characters are hex digits. -/
theorem isHexC_hexUpper {d : ℕ} (h : d < 16) : isHexC (hexUpper d) = true := by
  interval_cases d <;> decide

/-- quotePy unfolds one character at a time. -/
theorem quotePy_cons (c : Char) (r : Str) : quotePy (c :: r) = quoteChar c ++ quotePy r := rfl

/-- Decoding inverts encoding on printable ASCII strings. -/
theorem unquotePlus_quotePy {m : Str} (h : ∀ c ∈ m, 32 ≤ c.toNat ∧ c.toNat ≤ 126) :
    unquotePlus (quotePy m) = m := by
  induction m with
  | nil => rfl
  | cons c r ih =>
    have hc := h c (by simp)
    have hrest := ih (fun x hx => h x (by simp [hx]))
    rw [quotePy_cons]
    by_cases hs : quoteSafeC c = true
    · have h1 : c ≠ '+' := by
        intro he
        rw [he] at hs
        exact absurd hs (by decide)
      have h2 : c ≠ '%' := by
        intro he
        rw [he] at hs
        exact absurd hs (by decide)
      rw [show quoteChar c = [c] from by simp [quoteChar, hs]]
      simpa [unquotePlus_cons_plain h1 h2] using hrest
    · have hq : quoteChar c = ['%', hexUpper (c.toNat / 16), hexUpper (c.toNat % 16)] := by
        simp [quoteChar, hs]
      have hd1 : c.toNat / 16 < 16 := by omega
      have hd2 : c.toNat % 16 < 16 := by omega
      rw [hq]
      simp only [List.cons_append, List.nil_append]
      rw [show unquotePlus ('%' :: hexUpper (c.toNat / 16) :: hexUpper (c.toNat % 16) :: quotePy r)
            = Char.ofNat (16 * hexVal (hexUpper (c.toNat / 16)) + hexVal (hexUpper (c.toNat % 16)))
              :: unquotePlus (quotePy r) from by
        simp [unquotePlus, isHexC_hexUpper hd1, isHexC_hexUpper hd2]]
      rw [hexVal_hexUpper hd1, hexVal_hexUpper hd2, hrest]
      congr 1
      rw [show 16 * (c.toNat / 16) + c.toNat % 16 = c.toNat from by omega]
      exact ofNat_toNat_small c (by omega)

/-- Membership in an encoded string comes from one character encoding. -/
theorem mem_quotePy {m : Str} {c : Char} (hc : c ∈ quotePy m) :
    ∃ x ∈ m, c ∈ quoteChar x := by
  induction m with
  | nil => exact absurd hc (by simp [quotePy])
  | cons y r ih =>
    rw [quotePy_cons] at hc
    rcases List.mem_append.mp hc with h1 | h2
    · exact ⟨y, by simp, h1⟩
    · obtain ⟨x, hx, hcx⟩ := ih h2
      exact ⟨x, by simp [hx], hcx⟩

/-- Characters that never occur in an encoded string: unsafe ones other
than the percent sign and the uppercase hex digits. -/
theorem not_mem_quotePy (m : Str) (c : Char) (hm : ∀ x ∈ m, x.toNat < 256)
    (hsafe : quoteSafeC c = false) (hp : c ≠ '%')
    (hhex : ∀ d, d < 16 → c ≠ hexUpper d) : c ∉ quotePy m := by
  intro hc
  obtain ⟨x, hxm, hcx⟩ := mem_quotePy hc
  have hxb := hm x hxm
  by_cases hxs : quoteSafeC x = true
  · simp [quoteChar, hxs] at hcx
    rw [hcx] at hsafe
    rw [hxs] at hsafe
    exact absurd hsafe (by simp)
  · simp [quoteChar, hxs] at hcx
    rcases hcx with h | h | h
    · exact hp h
    · exact hhex (x.toNat / 16) (by omega) h
    · exact hhex (x.toNat % 16) (by omega) h


/-! ## Digit-string arithmetic -/

/-- Fueled digit extraction is correct once the fuel covers the number. -/
theorem valLE_natDigitsLE : ∀ fuel n, n ≤ fuel → valLE (natDigitsLE fuel n) = n := by
  intro fuel
  induction fuel with
  | zero =>
    intro n hn
    have : n = 0 := by omega
    subst this
    rfl
  | succ f ih =>
    intro n hn
    cases n with
    | zero => rfl
    | succ m =>
      have hrec : (m + 1) / 10 ≤ f := by
        have := Nat.div_lt_self (Nat.succ_pos m) (by norm_num : 1 < 10)
        omega
      simp only [natDigitsLE, valLE, List.foldr_cons]
      have := ih ((m + 1) / 10) hrec
      simp only [valLE] at this
      rw [this]
      omega

/-- Value of the digit list of a number. -/
theorem valLE_natLE (n : ℕ) : valLE (natLE n) = n := valLE_natDigitsLE n n le_rfl

/-- Extracted digits are below ten. -/
theorem natDigitsLE_lt : ∀ fuel n d, d ∈ natDigitsLE fuel n → d < 10 := by
  intro fuel
  induction fuel with
  | zero =>
    intro n d hd
    cases n <;> simp [natDigitsLE] at hd
  | succ f ih =>
    intro n d hd
    cases n with
    | zero => simp [natDigitsLE] at hd
    | succ m =>
      simp only [natDigitsLE, List.mem_cons] at hd
      rcases hd with h | h
      · rw [h]; exact Nat.mod_lt _ (by norm_num)
      · exact ih _ _ h

/-- Digit count bound from a power bound. -/
theorem natDigitsLE_length : ∀ fuel n k, n < 10 ^ k → (natDigitsLE fuel n).length ≤ k := by
  intro fuel
  induction fuel with
  | zero =>
    intro n k _
    cases n <;> simp [natDigitsLE]
  | succ f ih =>
    intro n k hk
    cases n with
    | zero => simp [natDigitsLE]
    | succ m =>
      cases k with
      | zero => simp at hk
      | succ j =>
        have hd : (m + 1) / 10 < 10 ^ j := by
          rw [Nat.div_lt_iff_lt_mul (by norm_num : 0 < 10)]
          calc m + 1 < 10 ^ (j + 1) := hk
          _ = 10 ^ j * 10 := by ring
        simp only [natDigitsLE, List.length_cons]
        have := ih ((m + 1) / 10) j hd
        omega

/-- Appending zero digits at the high end does not change the value. -/
theorem valLE_append_zeros (l : List ℕ) (k : ℕ) :
    valLE (l ++ List.replicate k 0) = valLE l := by
  have hz : valLE (List.replicate k 0) = 0 := by
    induction k with
    | zero => rfl
    | succ j ihj => simp [valLE, List.replicate_succ, List.foldr_cons] at ihj ⊢; omega
  induction l with
  | nil => simpa [valLE] using hz
  | cons d r ih => simp [valLE, List.foldr_append] at ih ⊢; omega

/-- Length never grows when dropping a recognised run. -/
theorem dropWhile_length_le {α : Type} (p : α → Bool) (l : List α) :
    (l.dropWhile p).length ≤ l.length := by
  induction l with
  | nil => simp
  | cons x r ih =>
    by_cases hx : p x
    · simp only [List.dropWhile_cons, hx, if_true]
      simp only [List.length_cons]
      omega
    · simp [List.dropWhile_cons, hx]

/-- Dropping low-order zero digits factors out a power of ten. -/
theorem valLE_dropWhile_zero (l : List ℕ) :
    valLE l = 10 ^ (l.length - (l.dropWhile (· = 0)).length) * valLE (l.dropWhile (· = 0)) := by
  induction l with
  | nil => simp [valLE]
  | cons d r ih =>
    by_cases hd : d = 0
    · subst hd
      have hlen : (r.dropWhile (· = 0)).length ≤ r.length := dropWhile_length_le _ r
      have hdw : (0 :: r).dropWhile (· = 0) = r.dropWhile (· = 0) := by
        simp [List.dropWhile_cons]
      rw [hdw]
      have hv : valLE (0 :: r) = 10 * valLE r := by simp [valLE]
      rw [hv, ih]
      have hexp : (0 :: r).length - (r.dropWhile (· = 0)).length
          = (r.length - (r.dropWhile (· = 0)).length) + 1 := by
        simp only [List.length_cons]
        omega
      rw [hexp, pow_succ]
      ring
    · have hdw : (d :: r).dropWhile (· = 0) = d :: r := by
        simp [List.dropWhile_cons, hd]
      rw [hdw]
      simp

/-- Members survive dropping low-order zeros. -/
theorem mem_of_mem_dropWhile_zero {l : List ℕ} {d : ℕ} (h : d ∈ l.dropWhile (· = 0)) :
    d ∈ l := by
  induction l with
  | nil => simp at h
  | cons x r ih =>
    by_cases hx : x = 0
    · subst hx
      have hdw : (0 :: r).dropWhile (· = 0) = r.dropWhile (· = 0) := by
        simp [List.dropWhile_cons]
      rw [hdw] at h
      exact List.mem_cons_of_mem _ (ih h)
    · have hdw : (x :: r).dropWhile (· = 0) = x :: r := by
        simp [List.dropWhile_cons, hx]
      rw [hdw] at h
      exact h

/-- Big-endian rendering evaluates back to the little-endian value. -/
theorem digitsValBE_rev_map (l : List ℕ) (h : ∀ d ∈ l, d < 10) :
    digitsValBE ((l.map digitChar).reverse) = valLE l := by
  induction l with
  | nil => rfl
  | cons d r ih =>
    have hd := h d (by simp)
    have hr := ih (fun x hx => h x (by simp [hx]))
    simp only [List.map_cons, List.reverse_cons]
    simp only [digitsValBE, List.foldl_append, List.foldl_cons, List.foldl_nil]
    simp only [digitsValBE] at hr
    rw [hr, digitVal_digitChar hd]
    simp [valLE]
    ring

/-- Value of a concatenation of digit strings. -/
theorem digitsValBE_append (a b : Str) :
    digitsValBE (a ++ b) = digitsValBE a * 10 ^ b.length + digitsValBE b := by
  have key : ∀ (b : Str) (init : ℕ),
      b.foldl (fun acc c => 10 * acc + digitVal c) init
        = init * 10 ^ b.length + b.foldl (fun acc c => 10 * acc + digitVal c) 0 := by
    intro b
    induction b with
    | nil => intro init; simp
    | cons c r ih =>
      intro init
      simp only [List.foldl_cons]
      rw [ih (10 * init + digitVal c), ih (10 * 0 + digitVal c)]
      simp only [List.length_cons]
      ring
  simp only [digitsValBE, List.foldl_append]
  exact key b _

/-- Rendered numbers consist of digit characters. -/
theorem natBE_digits (n : ℕ) : ∀ c ∈ natBE n, isDigitC c = true := by
  intro c hc
  by_cases hn : n = 0
  · subst hn
    simp [natBE] at hc
    subst hc
    decide
  · simp only [natBE, if_neg hn] at hc
    rw [List.mem_reverse] at hc
    obtain ⟨d, hd, hdc⟩ := List.mem_map.mp hc
    rw [← hdc]
    exact isDigitC_digitChar (natDigitsLE_lt _ _ _ hd)

/-- Rendered numbers are non-empty. -/
theorem natBE_ne_nil (n : ℕ) : natBE n ≠ [] := by
  by_cases hn : n = 0
  · subst hn; simp [natBE]
  · simp only [natBE, if_neg hn]
    intro h
    rw [List.reverse_eq_nil_iff, List.map_eq_nil_iff] at h
    cases n with
    | zero => exact hn rfl
    | succ m => simp [natLE, natDigitsLE] at h

/-- Rendered numbers evaluate to themselves. -/
theorem digitsValBE_natBE (n : ℕ) : digitsValBE (natBE n) = n := by
  by_cases hn : n = 0
  · subst hn; decide
  · simp only [natBE, if_neg hn]
    rw [digitsValBE_rev_map (natLE n) (fun d hd => natDigitsLE_lt n n d hd), valLE_natLE]



/-! ## Decimal parsing of rendered amounts -/

/-- Digits are not separators: a digit string contains no dot. -/
theorem dot_not_mem_of_digits {a : Str} (ha : ∀ c ∈ a, isDigitC c = true) : '.' ∉ a := by
  intro hm
  have := ha _ hm
  exact absurd this (by decide)

/-- Plain digit strings parse as integers. -/
theorem decimalOfChars_digits {a : Str} (ha : ∀ c ∈ a, isDigitC c = true) (hne : a ≠ []) :
    decimalOfChars a = some ⟨false, digitsValBE a, 0⟩ := by
  rcases a with _ | ⟨c, rest⟩
  · exact absurd rfl hne
  · have hcd := ha c (by simp)
    have hcm : ¬(c = '-') := by
      intro he
      rw [he] at hcd
      exact absurd hcd (by decide)
    have hsplit : splitOnChar '.' (c :: rest) = [c :: rest] :=
      splitOnChar_not_mem (dot_not_mem_of_digits ha)
    have hall : (c :: rest).all isDigitC = true := List.all_eq_true.mpr ha
    simp only [decimalOfChars, List.headD_cons, decide_eq_true_eq]
    rw [if_neg (by simp [hcm])]
    rw [hsplit]
    simp [hall, hcm]

/-- Digit strings with one separating dot parse as scaled integers. -/
theorem decimalOfChars_digits_dot {a f : Str} (ha : ∀ c ∈ a, isDigitC c = true)
    (hf : ∀ c ∈ f, isDigitC c = true) (hane : a ≠ []) :
    decimalOfChars (a ++ '.' :: f) = some ⟨false, digitsValBE (a ++ f), f.length⟩ := by
  rcases a with _ | ⟨c, rest⟩
  · exact absurd rfl hane
  · have hcd := ha c (by simp)
    have hcm : ¬(c = '-') := by
      intro he
      rw [he] at hcd
      exact absurd hcd (by decide)
    have hsplit : splitOnChar '.' ((c :: rest) ++ '.' :: f) = (c :: rest) :: splitOnChar '.' f :=
      splitOnChar_append (dot_not_mem_of_digits ha)
    have hsplitf : splitOnChar '.' f = [f] := splitOnChar_not_mem (dot_not_mem_of_digits hf)
    have halla : (c :: rest).all isDigitC = true := List.all_eq_true.mpr ha
    have hallf : f.all isDigitC = true := List.all_eq_true.mpr hf
    simp only [decimalOfChars, List.cons_append, List.headD_cons, decide_eq_true_eq]
    rw [if_neg (by simp [hcm])]
    rw [show (c :: (rest ++ '.' :: f)) = ((c :: rest) ++ '.' :: f) from by simp]
    rw [hsplit, hsplitf]
    simp [halla, hallf, hcm]

/-- Shape of the plain rendering of a satoshi amount: it parses back to a
non-negative exact decimal denoting the amount, with at most eight
fraction places. -/
theorem format_parse (n : ℕ) :
    ∃ mv fl, decimalOfChars (format_satoshis_plain (n : ℤ)) = some ⟨false, mv, fl⟩ ∧
      fl ≤ 8 ∧ mv * 10 ^ (8 - fl) = n := by
  have hnn : ¬((n : ℤ) < 0) := by omega
  have htn : (n : ℤ).toNat = n := Int.toNat_natCast n
  simp only [format_satoshis_plain, if_neg hnn, htn]
  set fpLE := natLE (n % 10 ^ 8) ++ List.replicate (8 - (natLE (n % 10 ^ 8)).length) 0 with hfp
  set f := fpLE.dropWhile (· = 0) with hfdef
  have hmod : n % 10 ^ 8 < 10 ^ 8 := Nat.mod_lt _ (by norm_num)
  have hlenLE : (natLE (n % 10 ^ 8)).length ≤ 8 := natDigitsLE_length _ _ _ hmod
  have hfpLen : fpLE.length = 8 := by
    rw [hfp, List.length_append, List.length_replicate]
    omega
  have hfpVal : valLE fpLE = n % 10 ^ 8 := by
    rw [hfp, valLE_append_zeros, valLE_natLE]
  have hfLen : f.length ≤ 8 := by
    rw [hfdef]
    calc (fpLE.dropWhile (· = 0)).length ≤ fpLE.length := dropWhile_length_le _ _
    _ = 8 := hfpLen
  have hfVal : n % 10 ^ 8 = 10 ^ (8 - f.length) * valLE f := by
    rw [← hfpVal, hfdef, ← hfpLen]
    exact valLE_dropWhile_zero fpLE
  have hfpDigits : ∀ d ∈ fpLE, d < 10 := by
    intro d hd
    rw [hfp] at hd
    rcases List.mem_append.mp hd with h | h
    · exact natDigitsLE_lt _ _ _ h
    · rw [List.eq_of_mem_replicate h]
      norm_num
  have hfDigits : ∀ d ∈ f, d < 10 := fun d hd => hfpDigits d (mem_of_mem_dropWhile_zero hd)
  by_cases hfe : f = []
  · refine ⟨digitsValBE (natBE (n / 10 ^ 8)), 0, ?_, by norm_num, ?_⟩
    · have hifz : (if f = [] then ([] : Str) else '.' :: (f.map digitChar).reverse) = [] := by
        rw [if_pos hfe]
      rw [hifz, List.append_nil]
      exact decimalOfChars_digits (natBE_digits _) (natBE_ne_nil _)
    · rw [digitsValBE_natBE]
      have hz : n % 10 ^ 8 = 0 := by
        rw [hfVal, hfe]
        simp [valLE]
      have := Nat.div_add_mod n (10 ^ 8)
      simp only [pow_zero, Nat.sub_zero]
      omega
  · refine ⟨digitsValBE (natBE (n / 10 ^ 8) ++ (f.map digitChar).reverse), f.length, ?_, hfLen, ?_⟩
    · have hifz : (if f = [] then ([] : Str) else '.' :: (f.map digitChar).reverse)
          = '.' :: (f.map digitChar).reverse := by
        rw [if_neg hfe]
      rw [hifz]
      have hres := decimalOfChars_digits_dot (a := natBE (n / 10 ^ 8))
        (f := (f.map digitChar).reverse)
        (natBE_digits _)
        (fun c hc => by
          rw [List.mem_reverse] at hc
          obtain ⟨d, hd, hdc⟩ := List.mem_map.mp hc
          rw [← hdc]
          exact isDigitC_digitChar (hfDigits d hd))
        (natBE_ne_nil _)
      rw [hres]
      simp
    · rw [digitsValBE_append, digitsValBE_natBE, digitsValBE_rev_map f hfDigits]
      have hx : ((f.map digitChar).reverse).length = f.length := by simp
      rw [hx]
      have hsplit := Nat.div_add_mod n (10 ^ 8)
      rw [hfVal] at hsplit
      calc (n / 10 ^ 8 * 10 ^ f.length + valLE f) * 10 ^ (8 - f.length)
          = n / 10 ^ 8 * (10 ^ f.length * 10 ^ (8 - f.length)) + valLE f * 10 ^ (8 - f.length) := by
            ring
      _ = 10 ^ 8 * (n / 10 ^ 8) + 10 ^ (8 - f.length) * valLE f := by
            rw [← pow_add]
            have hfl8 : f.length + (8 - f.length) = 8 := by omega
            rw [hfl8]
            ring
      _ = n := hsplit


/-- Rendered amounts contain only digits and dots. -/
theorem format_chars (n : ℕ) :
    ∀ c ∈ format_satoshis_plain (n : ℤ), isDigitC c = true ∨ c = '.' := by
  intro c hc
  have hnn : ¬((n : ℤ) < 0) := by omega
  have htn : (n : ℤ).toNat = n := Int.toNat_natCast n
  simp only [format_satoshis_plain, if_neg hnn, htn] at hc
  rcases List.mem_append.mp hc with h | h
  · exact Or.inl (natBE_digits _ _ h)
  · by_cases hfe : (natLE (n % 10 ^ 8) ++
        List.replicate (8 - (natLE (n % 10 ^ 8)).length) 0).dropWhile (· = 0) = []
    · rw [if_pos hfe] at h
      simp at h
    · rw [if_neg hfe] at h
      rcases List.mem_cons.mp h with h2 | h2
      · exact Or.inr h2
      · rw [List.mem_reverse] at h2
        obtain ⟨d, hd, hdc⟩ := List.mem_map.mp h2
        refine Or.inl ?_
        rw [← hdc]
        have hd10 : d < 10 := by
          have := mem_of_mem_dropWhile_zero hd
          rcases List.mem_append.mp this with h3 | h3
          · exact natDigitsLE_lt _ _ _ h3
          · rw [List.eq_of_mem_replicate h3]; norm_num
        exact isDigitC_digitChar hd10

/-- takeWhile keeps a fully recognised string. -/
theorem takeWhile_all {p : Char → Bool} {l : Str} (h : ∀ c ∈ l, p c = true) :
    l.takeWhile p = l := by
  induction l with
  | nil => rfl
  | cons c r ih =>
    rw [List.takeWhile_cons, if_pos (h c (by simp))]
    rw [ih (fun x hx => h x (by simp [hx]))]

/-- The exponent shorthand never matches a string of digits and dots. -/
theorem amountXMatch_digitdot {am : Str} (h : ∀ c ∈ am, isDigitC c = true ∨ c = '.') :
    amountXMatch am = none := by
  have hall : ∀ c ∈ am, (isDigitC c || c = '.') = true := by
    intro c hc
    rcases h c hc with h1 | h1 <;> simp [h1]
  simp only [amountXMatch]
  rw [takeWhile_all (by simpa using hall)]
  rw [List.drop_length]

/-- The amount grammar recovers a rendered in-cap satoshi amount. -/
theorem parseAmountField_format (n : ℕ) (hcap : n ≤ capSat) :
    parseAmountField (format_satoshis_plain (n : ℤ)) = .ok (n : ℤ) := by
  obtain ⟨mv, fl, hdec, hfl, hval⟩ := format_parse n
  have hmv8 : mv * 10 ^ 8 = n * 10 ^ fl := by
    calc mv * 10 ^ 8 = mv * 10 ^ ((8 - fl) + fl) := by rw [Nat.sub_add_cancel hfl]
    _ = (mv * 10 ^ (8 - fl)) * 10 ^ fl := by rw [pow_add]; ring
    _ = n * 10 ^ fl := by rw [hval]
  have hgt : decGtNat ⟨false, mv * 10 ^ 8, fl⟩ capSat = false := by
    simp only [decGtNat, Bool.not_false, Bool.true_and, decide_eq_false_iff_not, not_lt]
    rw [hmv8]
    exact Nat.mul_le_mul_right _ hcap
  have htr : decTruncInt ⟨false, mv * 10 ^ 8, fl⟩ = (n : ℤ) := by
    simp only [decTruncInt]
    rw [hmv8, Nat.mul_div_cancel _ (by positivity : 0 < 10 ^ fl)]
    rfl
  simp only [parseAmountField, amountXMatch_digitdot (format_chars n), hdec, Option.map_some']
  have hgoal : (⟨(⟨false, mv, fl⟩ : PyDec).neg, (⟨false, mv, fl⟩ : PyDec).m * 10 ^ 8,
      (⟨false, mv, fl⟩ : PyDec).e⟩ : PyDec) = ⟨false, mv * 10 ^ 8, fl⟩ := rfl
  rw [hgoal, hgt]
  simp only [Bool.false_eq_true, if_false]
  rw [htr]


/-! ## URL plumbing for canonical bitcoin URIs -/

/-- Alphanumeric characters are not URL metacharacters. -/
theorem alnum_ne {c : Char} (h : isAlnumC c = true) (d : Char)
    (hd : isAlnumC d = false) : c ≠ d := by
  intro he
  rw [he] at h
  rw [h] at hd
  exact absurd hd (by simp)

/-- urlsplit of a bitcoin URI with a metacharacter-free path and a
fragment-free query. -/
theorem urlsplit_bitcoin (p q : Str) (hp : ∀ c ∈ p, isAlnumC c = true) (hq : '#' ∉ q) :
    urlsplitM ("bitcoin:".data ++ p ++ '?' :: q) = ⟨"bitcoin".data, [], p, [], q, []⟩ := by
  have huri : "bitcoin:".data ++ p ++ '?' :: q = "bitcoin".data ++ ':' :: (p ++ '?' :: q) := rfl
  rw [huri]
  have hb1 : breakAt (· = ':') ("bitcoin".data ++ ':' :: (p ++ '?' :: q))
      = ("bitcoin".data, some (p ++ '?' :: q)) :=
    breakAt_append (by decide) (by decide)
  have hnoslash : ¬((p ++ '?' :: q).take 2 = ['/', '/']) := by
    rcases p with _ | ⟨c, p2⟩
    · simp
    · have hc : c ≠ '/' := alnum_ne (hp c (by simp)) '/' (by decide)
      simp [hc]
  have hb2 : breakAt (· = '#') (p ++ '?' :: q) = (p ++ '?' :: q, none) := by
    apply breakAt_eq_none
    intro c hc
    rcases List.mem_append.mp hc with h | h
    · simp [alnum_ne (hp c h) '#' (by decide)]
    · rcases List.mem_cons.mp h with h2 | h2
      · rw [h2]; decide
      · have : c ≠ '#' := fun he => hq (he ▸ h2)
        simp [this]
  have hb3 : breakAt (· = '?') (p ++ '?' :: q) = (p, some q) := by
    apply breakAt_append
    · intro x hx
      simp [alnum_ne (hp x hx) '?' (by decide)]
    · decide
  simp only [urlsplitM, hb1, hb2, hb3]
  rw [if_pos (by decide)]
  rw [if_neg hnoslash]
  simp only [hb2, hb3]
  rfl

/-- urlparse adds no parameter split for an alphanumeric path. -/
theorem urlparse_bitcoin (p q : Str) (hp : ∀ c ∈ p, isAlnumC c = true) (hq : '#' ∉ q) :
    urlparseM ("bitcoin:".data ++ p ++ '?' :: q) = ⟨"bitcoin".data, [], p, [], q, []⟩ := by
  have hsemi : ';' ∉ p := by
    intro hm
    exact absurd rfl (alnum_ne (hp _ hm) ';' (by decide))
  simp only [urlparseM, urlsplit_bitcoin p q hp hq]
  rw [if_neg hsemi]

/-- The decoder on a canonical bitcoin URI reduces to the query stage. -/
theorem parse_bip21_shape (ctx : Ctx) (p q : Str) (hp : ∀ c ∈ p, isAlnumC c = true)
    (hq : '#' ∉ q) :
    parse_bip21_URI ctx ("bitcoin:".data ++ p ++ '?' :: q) = bip21QueryStage ctx p q := by
  have hcolon : ':' ∈ "bitcoin:".data ++ p ++ '?' :: q := by
    rw [show "bitcoin:".data ++ p ++ '?' :: q = "bitcoin".data ++ ':' :: (p ++ '?' :: q) from rfl]
    simp
  simp only [parse_bip21_URI]
  rw [if_neg (by simp [hcolon])]
  rw [urlparse_bitcoin p q hp hq]
  show (if lowerStr "bitcoin".data ≠ BITCOIN_BIP21_URI_SCHEME then
      Except.error (Sum.inl Bip21Error.notBitcoinURI) else bip21QueryStage ctx p q)
    = bip21QueryStage ctx p q
  rw [if_neg (by decide)]


/-! ## Dictionary and query lemmas -/

/-- Lookup at the head key. -/
theorem aget_cons_eq {α : Type} (k : Str) (v : α) (r : List (Str × α)) :
    aget ((k, v) :: r) k = some v := by
  simp [aget]

/-- Lookup skips a different head key. -/
theorem aget_cons_ne {α : Type} {k2 k : Str} (h : k2 ≠ k) (v : α) (r : List (Str × α)) :
    aget ((k2, v) :: r) k = aget r k := by
  simp [aget, h]

/-- Lookup in the empty dictionary. -/
theorem aget_nil {α : Type} (k : Str) : aget ([] : List (Str × α)) k = none := rfl

/-- Update of the head key replaces in place. -/
theorem aset_cons_eq {α : Type} (k : Str) (v2 v : α) (r : List (Str × α)) :
    aset ((k, v2) :: r) k v = (k, v) :: r := by
  simp [aset]

/-- Update skips a different head key. -/
theorem aset_cons_ne {α : Type} {k2 k : Str} (h : k2 ≠ k) (v2 v : α) (r : List (Str × α)) :
    aset ((k2, v2) :: r) k v = (k2, v2) :: aset r k v := by
  simp [aset, h]

/-- Update of the empty dictionary appends. -/
theorem aset_nil {α : Type} (k : Str) (v : α) : aset ([] : List (Str × α)) k v = [(k, v)] := rfl

/-- One kept pair of the query parser. -/
theorem parse_qsl_one {k v : Str} (hk : '=' ∉ k) (hv : v ≠ [])
    (hka : '&' ∉ k) (hva : '&' ∉ v) :
    parse_qsl (k ++ '=' :: v) = [(unquotePlus k, unquotePlus v)] := by
  have hsplit : splitOnChar '&' (k ++ '=' :: v) = [k ++ '=' :: v] := by
    apply splitOnChar_not_mem
    intro hm
    rcases List.mem_append.mp hm with h | h
    · exact hka h
    · rcases List.mem_cons.mp h with h2 | h2
      · exact absurd h2 (by decide)
      · exact hva h2
  have hbreak : breakAt (· = '=') (k ++ '=' :: v) = (k, some v) := by
    apply breakAt_append
    · intro x hx
      have hxe : ¬(x = '=') := fun he => hk (he ▸ hx)
      simp [hxe]
    · decide
  simp only [parse_qsl, hsplit, List.foldr_cons, List.foldr_nil]
  rw [if_neg (by simp : ¬(k ++ '=' :: v = []))]
  rw [hbreak]
  simp [hv]

/-- Two kept pairs of the query parser. -/
theorem parse_qsl_two {k1 v1 k2 v2 : Str} (hk1 : '=' ∉ k1) (hv1 : v1 ≠ [])
    (hk1a : '&' ∉ k1) (hv1a : '&' ∉ v1) (hk2 : '=' ∉ k2) (hv2 : v2 ≠ [])
    (hk2a : '&' ∉ k2) (hv2a : '&' ∉ v2) :
    parse_qsl ((k1 ++ '=' :: v1) ++ '&' :: (k2 ++ '=' :: v2))
      = [(unquotePlus k1, unquotePlus v1), (unquotePlus k2, unquotePlus v2)] := by
  have hone := parse_qsl_one hk2 hv2 hk2a hv2a
  have hsplit2 : splitOnChar '&' (k2 ++ '=' :: v2) = [k2 ++ '=' :: v2] := by
    apply splitOnChar_not_mem
    intro hm
    rcases List.mem_append.mp hm with h | h
    · exact hk2a h
    · rcases List.mem_cons.mp h with h2 | h2
      · exact absurd h2 (by decide)
      · exact hv2a h2
  have hsplit : splitOnChar '&' ((k1 ++ '=' :: v1) ++ '&' :: (k2 ++ '=' :: v2))
      = (k1 ++ '=' :: v1) :: splitOnChar '&' (k2 ++ '=' :: v2) := by
    apply splitOnChar_append
    intro hm
    rcases List.mem_append.mp hm with h | h
    · exact hk1a h
    · rcases List.mem_cons.mp h with h2 | h2
      · exact absurd h2 (by decide)
      · exact hv1a h2
  have hbreak1 : breakAt (· = '=') (k1 ++ '=' :: v1) = (k1, some v1) := by
    apply breakAt_append
    · intro x hx
      have hxe : ¬(x = '=') := fun he => hk1 (he ▸ hx)
      simp [hxe]
    · decide
  have hbreak2 : breakAt (· = '=') (k2 ++ '=' :: v2) = (k2, some v2) := by
    apply breakAt_append
    · intro x hx
      have hxe : ¬(x = '=') := fun he => hk2 (he ▸ hx)
      simp [hxe]
    · decide
  simp only [parse_qsl, hsplit, hsplit2, List.foldr_cons, List.foldr_nil]
  rw [if_neg (by simp : ¬(k1 ++ '=' :: v1 = []))]
  rw [if_neg (by simp : ¬(k2 ++ '=' :: v2 = []))]
  rw [hbreak1, hbreak2]
  simp [hv1, hv2]

/-- Grouping one pair. -/
theorem qsGroup_one (k v : Str) : qsGroup [(k, v)] = [(k, [v])] := rfl

/-- Grouping two pairs with distinct keys. -/
theorem qsGroup_two {k1 k2 : Str} (h : k1 ≠ k2) (v1 v2 : Str) :
    qsGroup [(k1, v1), (k2, v2)] = [(k1, [v1]), (k2, [v2])] := by
  simp [qsGroup, groupAdd, h]

/-- The duplicate-key scan passes singleton groups, one-entry case. -/
theorem findDup_one (k : Str) (v : Str) :
    ([(k, [v])].find? (fun kv => kv.2.length ≠ 1)) = none := by
  simp [List.find?]

/-- The duplicate-key scan passes singleton groups, two-entry case. -/
theorem findDup_two (k1 k2 : Str) (v1 v2 : Str) :
    ([(k1, [v1]), (k2, [v2])].find? (fun kv => kv.2.length ≠ 1)) = none := by
  simp [List.find?]


/-! ## Query stage on an amount-plus-lightning URI -/

/-- Membership exclusion for alphanumeric strings. -/
theorem not_mem_of_alnum {l : Str} {d : Char} (h : ∀ c ∈ l, isAlnumC c = true)
    (hd : isAlnumC d = false) : d ∉ l := by
  intro hm
  exact absurd rfl (alnum_ne (h _ hm) d hd)

/-- Membership exclusion for digit-and-dot strings. -/
theorem not_mem_of_digitdot {l : Str} {d : Char} (h : ∀ c ∈ l, isDigitC c = true ∨ c = '.')
    (hd1 : isDigitC d = false) (hd2 : d ≠ '.') : d ∉ l := by
  intro hm
  rcases h d hm with h1 | h1
  · rw [h1] at hd1; exact absurd hd1 (by simp)
  · exact hd2 h1

/-- unquotePlus is the identity on digit-and-dot strings. -/
theorem unquotePlus_digitdot {l : Str} (h : ∀ c ∈ l, isDigitC c = true ∨ c = '.') :
    unquotePlus l = l := by
  apply unquotePlus_id
  intro c hc
  rcases h c hc with h1 | h1
  · constructor
    · intro he; rw [he] at h1; exact absurd h1 (by decide)
    · intro he; rw [he] at h1; exact absurd h1 (by decide)
  · rw [h1]; exact ⟨by decide, by decide⟩

/-- unquotePlus is the identity on alphanumeric strings. -/
theorem unquotePlus_alnum {l : Str} (h : ∀ c ∈ l, isAlnumC c = true) :
    unquotePlus l = l := by
  apply unquotePlus_id
  intro c hc
  have := h c hc
  constructor
  · exact alnum_ne this '+' (by decide)
  · exact alnum_ne this '%' (by decide)

/-- Result of the query stage on an empty path with exactly a plain amount
field and an embedded lightning invoice carrying an amount: the decoder
succeeds exactly when the converted amount is zero (the consistency check
is skipped) or within one satoshi of the invoice amount. -/
theorem bip21_stage_amount_lightning (ctx : Ctx) (A L : Str) (n la : ℤ)
    (hA : ∀ c ∈ A, isDigitC c = true ∨ c = '.') (hAne : A ≠ [])
    (hL : ∀ c ∈ L, isAlnumC c = true) (hLne : L ≠ [])
    (hAf : parseAmountField A = .ok n)
    (hln : ctx.lndecode L = some ⟨some la, none⟩) :
    bip21QueryStage ctx [] (("amount".data ++ '=' :: A) ++ '&' :: ("lightning".data ++ '=' :: L))
      = if n ≠ 0 ∧ 1 < (n - la).natAbs then .error (.inl .inconsistentAmount)
        else .ok [("amount".data, .i n), ("lightning".data, .s L)] := by
  have hqsl : parse_qsl (("amount".data ++ '=' :: A) ++ '&' :: ("lightning".data ++ '=' :: L))
      = [("amount".data, A), ("lightning".data, L)] := by
    rw [parse_qsl_two (by decide) hAne (by decide)
      (not_mem_of_digitdot hA (by decide) (by decide)) (by decide) hLne (by decide)
      (not_mem_of_alnum hL (by decide))]
    rw [unquotePlus_digitdot hA, unquotePlus_alnum hL]
    rw [show unquotePlus "amount".data = "amount".data from by decide]
    rw [show unquotePlus "lightning".data = "lightning".data from by decide]
  have hgrp : qsGroup [("amount".data, A), ("lightning".data, L)]
      = [("amount".data, [A]), ("lightning".data, [L])] := qsGroup_two (by decide) A L
  have haddr : bip21AddrStep ctx [] [("amount".data, PyVal.s A), ("lightning".data, PyVal.s L)]
      = .ok [("amount".data, PyVal.s A), ("lightning".data, PyVal.s L)] := by
    simp [bip21AddrStep]
  have hamt : bip21AmountStep [("amount".data, PyVal.s A), ("lightning".data, PyVal.s L)]
      = .ok [("amount".data, PyVal.i n), ("lightning".data, PyVal.s L)] := by
    simp only [bip21AmountStep, aget_cons_eq, hAf, aset_cons_eq]
  have hgetmsg : aget [("amount".data, PyVal.i n), ("lightning".data, PyVal.s L)] "message".data
      = none := by
    rw [aget_cons_ne (by decide), aget_cons_ne (by decide), aget_nil]
  have hgettime : aget [("amount".data, PyVal.i n), ("lightning".data, PyVal.s L)] "time".data
      = none := by
    rw [aget_cons_ne (by decide), aget_cons_ne (by decide), aget_nil]
  have hgetexp : aget [("amount".data, PyVal.i n), ("lightning".data, PyVal.s L)] "exp".data
      = none := by
    rw [aget_cons_ne (by decide), aget_cons_ne (by decide), aget_nil]
  have hgetsig : aget [("amount".data, PyVal.i n), ("lightning".data, PyVal.s L)] "sig".data
      = none := by
    rw [aget_cons_ne (by decide), aget_cons_ne (by decide), aget_nil]
  have hmsg : bip21MessageStep [("amount".data, PyVal.i n), ("lightning".data, PyVal.s L)]
      = [("amount".data, PyVal.i n), ("lightning".data, PyVal.s L)] := by
    simp only [bip21MessageStep, hgetmsg]
  have htime : bip21IntStep "time".data .timeParseFail
      [("amount".data, PyVal.i n), ("lightning".data, PyVal.s L)]
      = .ok [("amount".data, PyVal.i n), ("lightning".data, PyVal.s L)] := by
    simp only [bip21IntStep, hgettime]
  have hexp : bip21IntStep "exp".data .expParseFail
      [("amount".data, PyVal.i n), ("lightning".data, PyVal.s L)]
      = .ok [("amount".data, PyVal.i n), ("lightning".data, PyVal.s L)] := by
    simp only [bip21IntStep, hgetexp]
  have hsig : bip21SigStep ctx [("amount".data, PyVal.i n), ("lightning".data, PyVal.s L)]
      = .ok [("amount".data, PyVal.i n), ("lightning".data, PyVal.s L)] := by
    simp only [bip21SigStep, hgetsig]
  have hgetl : aget [("amount".data, PyVal.i n), ("lightning".data, PyVal.s L)] "lightning".data
      = some (PyVal.s L) := by
    rw [aget_cons_ne (by decide), aget_cons_eq]
  have hgeta : aget [("amount".data, PyVal.i n), ("lightning".data, PyVal.s L)] "amount".data
      = some (PyVal.i n) := aget_cons_eq _ _ _
  have hgetad : aget [("amount".data, PyVal.i n), ("lightning".data, PyVal.s L)] "address".data
      = none := by
    rw [aget_cons_ne (by decide), aget_cons_ne (by decide), aget_nil]
  simp only [bip21QueryStage, hqsl, hgrp, findDup_two, List.map_cons, List.map_nil,
    List.headD_cons, haddr, hamt, hmsg, htime, hexp, hsig]
  simp only [bip21LightningStep, hgetl, hln, hgeta, hgetad]
  by_cases hn : n = 0
  · subst hn
    simp [pyTruthy]
  · have htr : pyTruthy (PyVal.i n) = true := by simp [pyTruthy, hn]
    rw [htr]
    simp only [if_true]
    by_cases hd : 1 < (n - la).natAbs
    · simp [hd, hn]
    · simp [hd, hn]


/-! ## Concrete oracle instances -/

/-- Trivial oracle bundle for concrete instances: no address validates,
every codec fails, the max-spend token is the exclamation mark (an
implementation-defined token per spec section 4.4). -/
def oracleBase : Ctx where
  is_address := fun _ => false
  address_to_script := fun _ => []
  lndecode := fun _ => none
  decode_lnurl := fun _ => none
  base_decode58 := fun _ => none
  re_email_match := fun _ => false
  re_alias_group := fun _ => none
  decimal_point := 8
  is_max_spend := fun s => s = ['!']
  from_bech32 := fun _ => none
  callback_lnurl := fun _ _ => .error []

/-- Oracle instance whose invoice decoder knows one invoice of amount
500000002 satoshis and no fallback address. -/
def oracleC2 : Ctx :=
  { oracleBase with lndecode := fun s =>
      if s = "ln1".data then some ⟨some 500000002, none⟩ else none }

/-- Fragment exclusion for the canonical two-field query. -/
theorem hash_not_mem_two_fields {A L : Str}
    (hA : ∀ c ∈ A, isDigitC c = true ∨ c = '.') (hL : ∀ c ∈ L, isAlnumC c = true) :
    '#' ∉ ("amount".data ++ '=' :: A) ++ '&' :: ("lightning".data ++ '=' :: L) := by
  intro hm
  rcases List.mem_append.mp hm with h | h
  · rcases List.mem_append.mp h with h2 | h2
    · revert h2; decide
    · rcases List.mem_cons.mp h2 with h3 | h3
      · exact absurd h3 (by decide)
      · exact not_mem_of_digitdot hA (by decide) (by decide) h3
  · rcases List.mem_cons.mp h with h2 | h2
    · exact absurd h2 (by decide)
    · rcases List.mem_append.mp h2 with h3 | h3
      · revert h3; decide
      · rcases List.mem_cons.mp h3 with h4 | h4
        · exact absurd h4 (by decide)
        · exact not_mem_of_alnum hL (by decide) h4

/-- C2: for a bip21 URI carrying a plain amount field that converts to a
nonzero satoshi amount together with an embedded lightning invoice whose
decoded amount is la, decoding succeeds exactly when the absolute
difference is at most one satoshi, and fails with the inconsistent-amount
hard error when the difference exceeds one. -/
theorem claim_C2 (ctx : Ctx) (A L : Str) (n la : ℤ)
    (hA : ∀ c ∈ A, isDigitC c = true ∨ c = '.') (hAne : A ≠ [])
    (hL : ∀ c ∈ L, isAlnumC c = true) (hLne : L ≠ [])
    (hAf : parseAmountField A = .ok n) (hn : n ≠ 0)
    (hln : ctx.lndecode L = some ⟨some la, none⟩) :
    parse_bip21_URI ctx ("bitcoin:?amount=".data ++ A ++ "&lightning=".data ++ L)
      = if 1 < (n - la).natAbs then .error (.inl .inconsistentAmount)
        else .ok [("amount".data, .i n), ("lightning".data, .s L)] := by
  have hshape : "bitcoin:?amount=".data ++ A ++ "&lightning=".data ++ L
      = "bitcoin:".data ++ ([] : Str)
        ++ '?' :: (("amount".data ++ '=' :: A) ++ '&' :: ("lightning".data ++ '=' :: L)) := by
    simp
  rw [hshape, parse_bip21_shape ctx [] _ (by simp) (hash_not_mem_two_fields hA hL),
    bip21_stage_amount_lightning ctx A L n la hA hAne hL hLne hAf hln]
  simp [hn]

/-- Witness for C2 at a concrete input: amount field 5 (500000000
satoshis) against an embedded invoice of 500000002 satoshis, difference
two, rejected as inconsistent. -/
theorem claim_C2_witness :
    ((∀ c ∈ "5".data, isDigitC c = true ∨ c = '.') ∧ "5".data ≠ [] ∧
      (∀ c ∈ "ln1".data, isAlnumC c = true) ∧ "ln1".data ≠ [] ∧
      parseAmountField "5".data = .ok 500000000 ∧ (500000000 : ℤ) ≠ 0 ∧
      oracleC2.lndecode "ln1".data = some ⟨some 500000002, none⟩) ∧
    parse_bip21_URI oracleC2 ("bitcoin:?amount=".data ++ "5".data ++ "&lightning=".data
        ++ "ln1".data)
      = .error (.inl .inconsistentAmount) :=
  ⟨⟨by decide, by decide, by decide, by decide, by decide, by decide, by decide⟩,
    (claim_C2 oracleC2 "5".data "ln1".data 500000000 500000002 (by decide) (by decide)
      (by decide) (by decide) (by decide) (by decide) (by decide)).trans (by decide)⟩

/-- C10: when the plain amount field of a bip21 URI converts to zero, the
amount-consistency check against the embedded lightning invoice is
skipped: the URI decodes successfully even though the invoice carries any
nonzero amount. -/
theorem claim_C10 (ctx : Ctx) (A L : Str) (la : ℤ)
    (hA : ∀ c ∈ A, isDigitC c = true ∨ c = '.') (hAne : A ≠ [])
    (hL : ∀ c ∈ L, isAlnumC c = true) (hLne : L ≠ [])
    (hAf : parseAmountField A = .ok 0) (_hla : la ≠ 0)
    (hln : ctx.lndecode L = some ⟨some la, none⟩) :
    parse_bip21_URI ctx ("bitcoin:?amount=".data ++ A ++ "&lightning=".data ++ L)
      = .ok [("amount".data, .i 0), ("lightning".data, .s L)] := by
  have hshape : "bitcoin:?amount=".data ++ A ++ "&lightning=".data ++ L
      = "bitcoin:".data ++ ([] : Str)
        ++ '?' :: (("amount".data ++ '=' :: A) ++ '&' :: ("lightning".data ++ '=' :: L)) := by
    simp
  rw [hshape, parse_bip21_shape ctx [] _ (by simp) (hash_not_mem_two_fields hA hL),
    bip21_stage_amount_lightning ctx A L 0 la hA hAne hL hLne hAf hln]
  simp

/-- Witness for C10 at a concrete input: amount field 0 with an embedded
invoice of 500000002 satoshis decodes successfully. -/
theorem claim_C10_witness :
    ((∀ c ∈ "0".data, isDigitC c = true ∨ c = '.') ∧ "0".data ≠ [] ∧
      (∀ c ∈ "ln1".data, isAlnumC c = true) ∧ "ln1".data ≠ [] ∧
      parseAmountField "0".data = .ok 0 ∧ (500000002 : ℤ) ≠ 0 ∧
      oracleC2.lndecode "ln1".data = some ⟨some 500000002, none⟩) ∧
    parse_bip21_URI oracleC2 ("bitcoin:?amount=".data ++ "0".data ++ "&lightning=".data
        ++ "ln1".data)
      = .ok [("amount".data, .i 0), ("lightning".data, .s "ln1".data)] :=
  ⟨⟨by decide, by decide, by decide, by decide, by decide, by decide, by decide⟩,
    claim_C10 oracleC2 "0".data "ln1".data 500000002 (by decide) (by decide) (by decide)
      (by decide) (by decide) (by decide) (by decide)⟩


/-- Oracle instance validating two concrete addresses. -/
def oracleAddr : Ctx :=
  { oracleBase with
    is_address := fun s => s = "addr1".data || s = "addr2".data
    address_to_script := fun s => if s = "addr1".data then [81] else [82] }

/-- C6 counterexample: a URI whose query repeats the key foo, once with a
blank value, decodes successfully and silently keeps the non-blank first
value instead of raising the duplicate-key error the claim promises for
every repeated key. -/
theorem claim_C6_counterexample :
    parse_bip21_URI oracleBase "bitcoin:?foo=1&foo=".data
      = .ok [("foo".data, .s "1".data)] := by decide

/-- C6 as amended: a repeated query key among the pairs the query parser
keeps (non-blank values) is always rejected with the hard duplicate-key
error, before any field is interpreted; occurrences with blank values are
dropped by the query parser before this check. -/
theorem claim_C6 (ctx : Ctx) (qs : Str) (hq : '#' ∉ qs)
    (hdup : ∃ kv ∈ qsGroup (parse_qsl qs), kv.2.length ≠ 1) :
    ∃ k, parse_bip21_URI ctx ("bitcoin:?".data ++ qs)
      = .error (.inl (.duplicateKey k)) := by
  have hshape : "bitcoin:?".data ++ qs = "bitcoin:".data ++ ([] : Str) ++ '?' :: qs := by simp
  rw [hshape, parse_bip21_shape ctx [] qs (by simp) hq]
  simp only [bip21QueryStage]
  have hsome : ((qsGroup (parse_qsl qs)).find? (fun kv => kv.2.length ≠ 1)).isSome := by
    rw [List.find?_isSome]
    obtain ⟨kv, hkv, hp⟩ := hdup
    exact ⟨kv, hkv, by simpa using hp⟩
  obtain ⟨kv, hkv⟩ := Option.isSome_iff_exists.mp hsome
  rw [hkv]
  exact ⟨kv.1, rfl⟩

/-- Witness for C6 at a concrete input: both values of the repeated key
are kept, so decoding fails with the duplicate-key error. -/
theorem claim_C6_witness :
    ('#' ∉ "a=1&a=2".data ∧
      ∃ kv ∈ qsGroup (parse_qsl "a=1&a=2".data), kv.2.length ≠ 1) ∧
    ∃ k, parse_bip21_URI oracleBase ("bitcoin:?".data ++ "a=1&a=2".data)
      = .error (.inl (.duplicateKey k)) :=
  ⟨⟨by decide, by decide⟩, claim_C6 oracleBase "a=1&a=2".data (by decide) (by decide)⟩


/-! ## Helpers for the round-trip claim -/

/-- Rendered amounts of non-negative integers are non-empty. -/
theorem format_ne_nil (n : ℕ) : format_satoshis_plain (n : ℤ) ≠ [] := by
  have hnn : ¬((n : ℤ) < 0) := by omega
  simp only [format_satoshis_plain, if_neg hnn]
  intro h
  exact natBE_ne_nil _ (List.append_eq_nil.mp h).1

/-- Encodings of non-empty strings are non-empty. -/
theorem quotePy_ne_nil {m : Str} (hm : m ≠ []) : quotePy m ≠ [] := by
  rcases m with _ | ⟨c, r⟩
  · exact absurd rfl hm
  · rw [quotePy_cons]
    have hq : quoteChar c ≠ [] := by
      unfold quoteChar
      split <;> simp
    intro h
    exact hq (List.append_eq_nil.mp h).1

/-- Code points of uppercase hex digit characters. -/
theorem hexUpper_char {d : ℕ} (h : d < 16) :
    (48 ≤ (hexUpper d).toNat ∧ (hexUpper d).toNat ≤ 57) ∨
    (65 ≤ (hexUpper d).toNat ∧ (hexUpper d).toNat ≤ 70) := by
  interval_cases d <;> decide

/-- Characters with code points outside both hex ranges never equal an
uppercase hex digit character. -/
theorem ne_hexUpper {c : Char}
    (hc : c.toNat < 48 ∨ (57 < c.toNat ∧ c.toNat < 65) ∨ 70 < c.toNat) :
    ∀ d, d < 16 → c ≠ hexUpper d := by
  intro d hd he
  have := hexUpper_char hd
  rw [← he] at this
  omega

/-- Joining two query segments with an ampersand. -/
theorem intercalate_two (s x y : Str) : List.intercalate s [x, y] = x ++ s ++ y := by
  simp [List.intercalate, List.intersperse]

/-- create_bip21_uri on a valid address with a positive amount and a
non-empty message produces the canonical two-field URI. -/
theorem create_full (ctx : Ctx) (a : Str) (n : ℕ) (msg : Str)
    (haddr : ctx.is_address a = true) (hn1 : 1 ≤ n) (hmne : msg ≠ []) :
    create_bip21_uri ctx a (some (n : ℤ)) (some msg)
      = .ok ("bitcoin:".data ++ a ++ '?' ::
          (("amount".data ++ '=' :: format_satoshis_plain (n : ℤ))
            ++ '&' :: ("message".data ++ '=' :: quotePy msg))) := by
  have hnz : (n : ℤ) ≠ 0 := by omega
  simp only [create_bip21_uri, haddr, Bool.not_true, Bool.false_eq_true, if_false,
    if_neg (by simp : ¬(!true) = true)]
  rw [if_pos hnz, if_pos hmne]
  simp only [List.foldr_nil]
  have hq : (["amount".data ++ format_satoshis_plain (n : ℤ)] : List Str) ≠ [] := by simp
  rw [show ((["amount=".data ++ format_satoshis_plain (n : ℤ)] : List Str)
      ++ ["message=".data ++ quotePy msg] ++ [])
      = [("amount=".data ++ format_satoshis_plain (n : ℤ)),
         ("message=".data ++ quotePy msg)] from by simp]
  rw [intercalate_two]
  rw [if_neg (by simp : ¬("amount=".data ++ format_satoshis_plain (n : ℤ)
      ++ ['&'] ++ ("message=".data ++ quotePy msg) = []))]
  congr 1
  simp [BITCOIN_BIP21_URI_SCHEME]


/-- Ampersand never occurs in an encoded message. -/
theorem amp_not_mem_quotePy {msg : Str} (hmsg : ∀ c ∈ msg, 32 ≤ c.toNat ∧ c.toNat ≤ 126) :
    '&' ∉ quotePy msg :=
  not_mem_quotePy msg '&' (fun x hx => by have := hmsg x hx; omega) (by decide) (by decide)
    (ne_hexUpper (by decide))

/-- Hash never occurs in an encoded message. -/
theorem hash_not_mem_quotePy {msg : Str} (hmsg : ∀ c ∈ msg, 32 ≤ c.toNat ∧ c.toNat ≤ 126) :
    '#' ∉ quotePy msg :=
  not_mem_quotePy msg '#' (fun x hx => by have := hmsg x hx; omega) (by decide) (by decide)
    (ne_hexUpper (by decide))

/-- Query stage on an address path with an amount field and an encoded
message field: the amount converts in place, the message is decoded and
duplicated under memo, and the path address is stored. -/
theorem bip21_stage_amount_message (ctx : Ctx) (a fmtv msg : Str) (n : ℤ)
    (haddr : ctx.is_address a = true) (hane : a ≠ [])
    (hfmt : ∀ c ∈ fmtv, isDigitC c = true ∨ c = '.') (hfne : fmtv ≠ [])
    (hmsg : ∀ c ∈ msg, 32 ≤ c.toNat ∧ c.toNat ≤ 126) (hmne : msg ≠ [])
    (hAf : parseAmountField fmtv = .ok n) :
    bip21QueryStage ctx a
        (("amount".data ++ '=' :: fmtv) ++ '&' :: ("message".data ++ '=' :: quotePy msg))
      = .ok [("amount".data, .i n), ("message".data, .s msg), ("address".data, .s a),
             ("memo".data, .s msg)] := by
  have hqsl : parse_qsl (("amount".data ++ '=' :: fmtv)
        ++ '&' :: ("message".data ++ '=' :: quotePy msg))
      = [("amount".data, fmtv), ("message".data, msg)] := by
    rw [parse_qsl_two (by decide) hfne (by decide)
      (not_mem_of_digitdot hfmt (by decide) (by decide)) (by decide) (quotePy_ne_nil hmne)
      (by decide) (amp_not_mem_quotePy hmsg)]
    rw [unquotePlus_digitdot hfmt, unquotePlus_quotePy hmsg]
    rw [show unquotePlus "amount".data = "amount".data from by decide]
    rw [show unquotePlus "message".data = "message".data from by decide]
  have hgrp : qsGroup [("amount".data, fmtv), ("message".data, msg)]
      = [("amount".data, [fmtv]), ("message".data, [msg])] := qsGroup_two (by decide) fmtv msg
  have haddrstep : bip21AddrStep ctx a [("amount".data, PyVal.s fmtv), ("message".data, PyVal.s msg)]
      = .ok [("amount".data, PyVal.s fmtv), ("message".data, PyVal.s msg),
             ("address".data, PyVal.s a)] := by
    simp only [bip21AddrStep, if_pos hane, haddr, if_true]
    rw [aset_cons_ne (by decide), aset_cons_ne (by decide), aset_nil]
  have hamt : bip21AmountStep [("amount".data, PyVal.s fmtv), ("message".data, PyVal.s msg),
        ("address".data, PyVal.s a)]
      = .ok [("amount".data, PyVal.i n), ("message".data, PyVal.s msg),
             ("address".data, PyVal.s a)] := by
    simp only [bip21AmountStep, aget_cons_eq, hAf, aset_cons_eq]
  have hgetmsg : aget [("amount".data, PyVal.i n), ("message".data, PyVal.s msg),
        ("address".data, PyVal.s a)] "message".data = some (PyVal.s msg) := by
    rw [aget_cons_ne (by decide), aget_cons_eq]
  have hmsgstep : bip21MessageStep [("amount".data, PyVal.i n), ("message".data, PyVal.s msg),
        ("address".data, PyVal.s a)]
      = [("amount".data, PyVal.i n), ("message".data, PyVal.s msg),
         ("address".data, PyVal.s a), ("memo".data, PyVal.s msg)] := by
    simp only [bip21MessageStep, hgetmsg]
    rw [aset_cons_ne (by decide), aset_cons_eq]
    rw [aset_cons_ne (by decide), aset_cons_ne (by decide), aset_cons_ne (by decide), aset_nil]
  have hgettime : aget [("amount".data, PyVal.i n), ("message".data, PyVal.s msg),
        ("address".data, PyVal.s a), ("memo".data, PyVal.s msg)] "time".data = none := by
    rw [aget_cons_ne (by decide), aget_cons_ne (by decide), aget_cons_ne (by decide),
      aget_cons_ne (by decide), aget_nil]
  have hgetexp : aget [("amount".data, PyVal.i n), ("message".data, PyVal.s msg),
        ("address".data, PyVal.s a), ("memo".data, PyVal.s msg)] "exp".data = none := by
    rw [aget_cons_ne (by decide), aget_cons_ne (by decide), aget_cons_ne (by decide),
      aget_cons_ne (by decide), aget_nil]
  have hgetsig : aget [("amount".data, PyVal.i n), ("message".data, PyVal.s msg),
        ("address".data, PyVal.s a), ("memo".data, PyVal.s msg)] "sig".data = none := by
    rw [aget_cons_ne (by decide), aget_cons_ne (by decide), aget_cons_ne (by decide),
      aget_cons_ne (by decide), aget_nil]
  have hgetln : aget [("amount".data, PyVal.i n), ("message".data, PyVal.s msg),
        ("address".data, PyVal.s a), ("memo".data, PyVal.s msg)] "lightning".data = none := by
    rw [aget_cons_ne (by decide), aget_cons_ne (by decide), aget_cons_ne (by decide),
      aget_cons_ne (by decide), aget_nil]
  have htime : bip21IntStep "time".data .timeParseFail
      [("amount".data, PyVal.i n), ("message".data, PyVal.s msg),
       ("address".data, PyVal.s a), ("memo".data, PyVal.s msg)]
      = .ok [("amount".data, PyVal.i n), ("message".data, PyVal.s msg),
             ("address".data, PyVal.s a), ("memo".data, PyVal.s msg)] := by
    simp only [bip21IntStep, hgettime]
  have hexp : bip21IntStep "exp".data .expParseFail
      [("amount".data, PyVal.i n), ("message".data, PyVal.s msg),
       ("address".data, PyVal.s a), ("memo".data, PyVal.s msg)]
      = .ok [("amount".data, PyVal.i n), ("message".data, PyVal.s msg),
             ("address".data, PyVal.s a), ("memo".data, PyVal.s msg)] := by
    simp only [bip21IntStep, hgetexp]
  have hsig : bip21SigStep ctx
      [("amount".data, PyVal.i n), ("message".data, PyVal.s msg),
       ("address".data, PyVal.s a), ("memo".data, PyVal.s msg)]
      = .ok [("amount".data, PyVal.i n), ("message".data, PyVal.s msg),
             ("address".data, PyVal.s a), ("memo".data, PyVal.s msg)] := by
    simp only [bip21SigStep, hgetsig]
  have hln : bip21LightningStep ctx
      [("amount".data, PyVal.i n), ("message".data, PyVal.s msg),
       ("address".data, PyVal.s a), ("memo".data, PyVal.s msg)]
      = .ok [("amount".data, PyVal.i n), ("message".data, PyVal.s msg),
             ("address".data, PyVal.s a), ("memo".data, PyVal.s msg)] := by
    simp only [bip21LightningStep, hgetln]
  simp only [bip21QueryStage, hqsl, hgrp, findDup_two, List.map_cons, List.map_nil,
    List.headD_cons, haddrstep, hamt, hmsgstep, htime, hexp, hsig, hln]

/-- Query stage on an address path with only an amount field. -/
theorem bip21_stage_amount_only (ctx : Ctx) (a fmtv : Str) (n : ℤ)
    (haddr : ctx.is_address a = true) (hane : a ≠ [])
    (hfmt : ∀ c ∈ fmtv, isDigitC c = true ∨ c = '.') (hfne : fmtv ≠ [])
    (hAf : parseAmountField fmtv = .ok n) :
    bip21QueryStage ctx a ("amount".data ++ '=' :: fmtv)
      = .ok [("amount".data, .i n), ("address".data, .s a)] := by
  have hqsl : parse_qsl ("amount".data ++ '=' :: fmtv) = [("amount".data, fmtv)] := by
    rw [parse_qsl_one (by decide) hfne (by decide)
      (not_mem_of_digitdot hfmt (by decide) (by decide))]
    rw [unquotePlus_digitdot hfmt]
    rw [show unquotePlus "amount".data = "amount".data from by decide]
  have haddrstep : bip21AddrStep ctx a [("amount".data, PyVal.s fmtv)]
      = .ok [("amount".data, PyVal.s fmtv), ("address".data, PyVal.s a)] := by
    simp only [bip21AddrStep, if_pos hane, haddr, if_true]
    rw [aset_cons_ne (by decide), aset_nil]
  have hamt : bip21AmountStep [("amount".data, PyVal.s fmtv), ("address".data, PyVal.s a)]
      = .ok [("amount".data, PyVal.i n), ("address".data, PyVal.s a)] := by
    simp only [bip21AmountStep, aget_cons_eq, hAf, aset_cons_eq]
  have hgetmsg : aget [("amount".data, PyVal.i n), ("address".data, PyVal.s a)] "message".data
      = none := by
    rw [aget_cons_ne (by decide), aget_cons_ne (by decide), aget_nil]
  have hgettime : aget [("amount".data, PyVal.i n), ("address".data, PyVal.s a)] "time".data
      = none := by
    rw [aget_cons_ne (by decide), aget_cons_ne (by decide), aget_nil]
  have hgetexp : aget [("amount".data, PyVal.i n), ("address".data, PyVal.s a)] "exp".data
      = none := by
    rw [aget_cons_ne (by decide), aget_cons_ne (by decide), aget_nil]
  have hgetsig : aget [("amount".data, PyVal.i n), ("address".data, PyVal.s a)] "sig".data
      = none := by
    rw [aget_cons_ne (by decide), aget_cons_ne (by decide), aget_nil]
  have hgetln : aget [("amount".data, PyVal.i n), ("address".data, PyVal.s a)] "lightning".data
      = none := by
    rw [aget_cons_ne (by decide), aget_cons_ne (by decide), aget_nil]
  have hmsgstep : bip21MessageStep [("amount".data, PyVal.i n), ("address".data, PyVal.s a)]
      = [("amount".data, PyVal.i n), ("address".data, PyVal.s a)] := by
    simp only [bip21MessageStep, hgetmsg]
  have htime : bip21IntStep "time".data .timeParseFail
      [("amount".data, PyVal.i n), ("address".data, PyVal.s a)]
      = .ok [("amount".data, PyVal.i n), ("address".data, PyVal.s a)] := by
    simp only [bip21IntStep, hgettime]
  have hexp : bip21IntStep "exp".data .expParseFail
      [("amount".data, PyVal.i n), ("address".data, PyVal.s a)]
      = .ok [("amount".data, PyVal.i n), ("address".data, PyVal.s a)] := by
    simp only [bip21IntStep, hgetexp]
  have hsig : bip21SigStep ctx [("amount".data, PyVal.i n), ("address".data, PyVal.s a)]
      = .ok [("amount".data, PyVal.i n), ("address".data, PyVal.s a)] := by
    simp only [bip21SigStep, hgetsig]
  have hln : bip21LightningStep ctx [("amount".data, PyVal.i n), ("address".data, PyVal.s a)]
      = .ok [("amount".data, PyVal.i n), ("address".data, PyVal.s a)] := by
    simp only [bip21LightningStep, hgetln]
  simp only [bip21QueryStage, hqsl, qsGroup_one, findDup_one, List.map_cons, List.map_nil,
    List.headD_cons, haddrstep, hamt, hmsgstep, htime, hexp, hsig, hln]


/-- C7 counterexample: with amount zero, create omits the amount field
entirely, so decoding its output yields only the address; the amount is
not recovered, refuting the round-trip claim for every non-negative
amount. -/
theorem claim_C7_counterexample :
    create_bip21_uri oracleAddr "addr1".data (some 0) none = .ok "bitcoin:addr1".data ∧
    parse_bip21_URI oracleAddr "bitcoin:addr1".data
      = .ok [("address".data, .s "addr1".data)] ∧
    aget [("address".data, PyVal.s "addr1".data)] "amount".data = none :=
  ⟨by decide, by decide, by decide⟩

/-- C7 as amended: for a valid alphanumeric address, a positive amount
within the supply cap, and a non-empty printable-ASCII message, the
created URI is the canonical two-field URI, decoding it recovers address,
amount, message (and the mirrored memo); and decoding the plain
amount-only URI yields exactly the amount and address fields. -/
theorem claim_C7 (ctx : Ctx) (a : Str) (n : ℕ) (msg : Str)
    (haddr : ctx.is_address a = true) (hac : ∀ c ∈ a, isAlnumC c = true) (hane : a ≠ [])
    (hn1 : 1 ≤ n) (hcap : n ≤ capSat)
    (hmsg : ∀ c ∈ msg, 32 ≤ c.toNat ∧ c.toNat ≤ 126) (hmne : msg ≠ []) :
    create_bip21_uri ctx a (some (n : ℤ)) (some msg)
      = .ok ("bitcoin:".data ++ a ++ '?' ::
          (("amount".data ++ '=' :: format_satoshis_plain (n : ℤ))
            ++ '&' :: ("message".data ++ '=' :: quotePy msg))) ∧
    parse_bip21_URI ctx ("bitcoin:".data ++ a ++ '?' ::
        (("amount".data ++ '=' :: format_satoshis_plain (n : ℤ))
          ++ '&' :: ("message".data ++ '=' :: quotePy msg)))
      = .ok [("amount".data, .i (n : ℤ)), ("message".data, .s msg),
             ("address".data, .s a), ("memo".data, .s msg)] ∧
    parse_bip21_URI ctx ("bitcoin:".data ++ a
        ++ '?' :: ("amount".data ++ '=' :: format_satoshis_plain (n : ℤ)))
      = .ok [("amount".data, .i (n : ℤ)), ("address".data, .s a)] := by
  refine ⟨create_full ctx a n msg haddr hn1 hmne, ?_, ?_⟩
  · have hq : '#' ∉ ("amount".data ++ '=' :: format_satoshis_plain (n : ℤ))
        ++ '&' :: ("message".data ++ '=' :: quotePy msg) := by
      intro hm
      rcases List.mem_append.mp hm with h | h
      · rcases List.mem_append.mp h with h2 | h2
        · revert h2; decide
        · rcases List.mem_cons.mp h2 with h3 | h3
          · exact absurd h3 (by decide)
          · exact not_mem_of_digitdot (format_chars n) (by decide) (by decide) h3
      · rcases List.mem_cons.mp h with h2 | h2
        · exact absurd h2 (by decide)
        · rcases List.mem_append.mp h2 with h3 | h3
          · revert h3; decide
          · rcases List.mem_cons.mp h3 with h4 | h4
            · exact absurd h4 (by decide)
            · exact hash_not_mem_quotePy hmsg h4
    rw [parse_bip21_shape ctx a _ hac hq,
      bip21_stage_amount_message ctx a _ msg (n : ℤ) haddr hane (format_chars n)
        (format_ne_nil n) hmsg hmne (parseAmountField_format n hcap)]
  · have hq : '#' ∉ "amount".data ++ '=' :: format_satoshis_plain (n : ℤ) := by
      intro hm
      rcases List.mem_append.mp hm with h | h
      · revert h; decide
      · rcases List.mem_cons.mp h with h2 | h2
        · exact absurd h2 (by decide)
        · exact not_mem_of_digitdot (format_chars n) (by decide) (by decide) h2
    rw [parse_bip21_shape ctx a _ hac hq,
      bip21_stage_amount_only ctx a _ (n : ℤ) haddr hane (format_chars n)
        (format_ne_nil n) (parseAmountField_format n hcap)]

/-- Witness for C7 at a concrete input: address addr1, amount 150000000
satoshis (rendered 1.5) and message "hi mom". -/
theorem claim_C7_witness :
    (oracleAddr.is_address "addr1".data = true ∧
      (∀ c ∈ "addr1".data, isAlnumC c = true) ∧ "addr1".data ≠ [] ∧
      1 ≤ 150000000 ∧ 150000000 ≤ capSat ∧
      (∀ c ∈ "hi mom".data, 32 ≤ c.toNat ∧ c.toNat ≤ 126) ∧ "hi mom".data ≠ []) ∧
    (create_bip21_uri oracleAddr "addr1".data (some (150000000 : ℤ)) (some "hi mom".data)
      = .ok ("bitcoin:".data ++ "addr1".data ++ '?' ::
          (("amount".data ++ '=' :: format_satoshis_plain (150000000 : ℤ))
            ++ '&' :: ("message".data ++ '=' :: quotePy "hi mom".data))) ∧
    parse_bip21_URI oracleAddr ("bitcoin:".data ++ "addr1".data ++ '?' ::
        (("amount".data ++ '=' :: format_satoshis_plain (150000000 : ℤ))
          ++ '&' :: ("message".data ++ '=' :: quotePy "hi mom".data)))
      = .ok [("amount".data, .i (150000000 : ℤ)), ("message".data, .s "hi mom".data),
             ("address".data, .s "addr1".data), ("memo".data, .s "hi mom".data)] ∧
    parse_bip21_URI oracleAddr ("bitcoin:".data ++ "addr1".data
        ++ '?' :: ("amount".data ++ '=' :: format_satoshis_plain (150000000 : ℤ)))
      = .ok [("amount".data, .i (150000000 : ℤ)), ("address".data, .s "addr1".data)]) :=
  ⟨⟨by decide, by decide, by decide, by decide, by decide, by decide, by decide⟩,
    claim_C7 oracleAddr "addr1".data 150000000 "hi mom".data (by decide) (by decide)
      (by decide) (by decide) (by decide) (by decide) (by decide)⟩


/-! ## Classifier and round-2 claims -/

/-- C1: the classifier does not survive a malformed bitcoin URI.  The
decoder rejects bitcoin:foo as an invalid address with InvalidBitcoinURI,
and the classifier's handler for exactly that exception evaluates the
unbound i18n name, so classification raises NameError instead of
recording the failure on the identifier. -/
theorem claim_C1_uri_error_crash :
    parse oracleBase initState "bitcoin:foo".data = .error .nameErrorUnderscore ∧
    parse_bip21_URI oracleBase "bitcoin:foo".data
      = .error (.inl (.invalidAddress "foo".data)) :=
  ⟨by decide, by decide⟩

/-- C9: classifying an empty or whitespace-only string returns without
raising, leaves the family tag unset so is_valid is false, and leaves the
error field unset. -/
theorem claim_C9 (ctx : Ctx) (s : Str) (h : pyStrip s = []) :
    parse ctx initState s = .ok initState ∧ initState.error = none ∧
      is_valid initState = false := by
  refine ⟨?_, rfl, rfl⟩
  simp [parse, h]

/-- Witness for C9 at a concrete whitespace-only input. -/
theorem claim_C9_witness :
    pyStrip " \t ".data = [] ∧
    (parse oracleBase initState " \t ".data = .ok initState ∧ initState.error = none ∧
      is_valid initState = false) :=
  ⟨by decide, claim_C9 oracleBase " \t ".data (by decide)⟩

/-- Identifier state of a Lightning pointer whose round 1 reported the
inclusive bounds 100 and 5000. -/
def lnurlSt : PIState :=
  { initState with lnurl := some "lnurlx".data, lnurl_data := some ⟨100, 5000, "cb".data⟩ }

/-- Oracle instance whose round-2 callback always reports an LNURL
failure. -/
def oracleC4 : Ctx :=
  { oracleBase with callback_lnurl := fun _ _ => .error "refused".data }

/-- C4: with round-1 bounds 100 and 5000, round 2 at the out-of-range
amounts 50 and 6000 raises AttributeError while formatting its error
message (the code reads the never-assigned attribute _lnurl_data), so no
error is recorded and no callback request is made; at the boundary
amounts 100 and 5000 the bounds check passes and the callback is reached
(here failing, which is recorded on the error field). -/
theorem claim_C4_out_of_range_crash :
    round_2 oracleC4 lnurlSt (some 50)
      = (.error .attributeErrorUnderscoreData, lnurlSt, false) ∧
    round_2 oracleC4 lnurlSt (some 6000)
      = (.error .attributeErrorUnderscoreData, lnurlSt, false) ∧
    round_2 oracleC4 lnurlSt (some 100)
      = (.ok (), { lnurlSt with error := some (.lnurlRequestError "refused".data) }, false) ∧
    round_2 oracleC4 lnurlSt (some 5000)
      = (.ok (), { lnurlSt with error := some (.lnurlRequestError "refused".data) }, false) :=
  ⟨by decide, by decide, by decide, by decide⟩

/-- C3: when the round-2 callback succeeds but the returned invoice's
decoded amount differs from the requested amount, round 2 raises the
wrong-amount exception: the state is unchanged (in particular the
returned invoice is not adopted as the identifier's invoice) and the
success callback does not run. -/
theorem claim_C3 (ctx : Ctx) (st : PIState) (lu : Str) (d : LNURL6Data) (amt : ℤ)
    (pr : Str) (r : Option ℤ)
    (hl : st.lnurl = some lu) (hd : st.lnurl_data = some d)
    (hlo : d.min_sendable_sat ≤ amt) (hhi : amt ≤ d.max_sendable_sat)
    (hcb : ctx.callback_lnurl d.callback_url (amt * 1000) = .ok (some pr))
    (hdec : ctx.from_bech32 pr = some r) (hne : r ≠ some amt) :
    round_2 ctx st (some amt) = (.error .wrongAmountError, st, false) := by
  simp only [round_2, hl, hd]
  rw [if_pos ⟨hlo, hhi⟩]
  simp only [hcb, hdec]
  rw [if_pos hne]

/-- Oracle instance whose round-2 callback returns one invoice decoding
to 99 satoshis. -/
def oracleC3 : Ctx :=
  { oracleBase with
    callback_lnurl := fun _ _ => .ok (some "inv".data)
    from_bech32 := fun s => if s = "inv".data then some (some 99) else none }

/-- Witness for C3 at a concrete input: requested amount 150, returned
invoice amount 99, round 2 raises and the invoice is not adopted. -/
theorem claim_C3_witness :
    (lnurlSt.lnurl = some "lnurlx".data ∧
      lnurlSt.lnurl_data = some ⟨100, 5000, "cb".data⟩ ∧
      (100 : ℤ) ≤ 150 ∧ (150 : ℤ) ≤ 5000 ∧
      oracleC3.callback_lnurl "cb".data (150 * 1000) = .ok (some "inv".data) ∧
      oracleC3.from_bech32 "inv".data = some (some 99) ∧ (some 99 : Option ℤ) ≠ some 150) ∧
    round_2 oracleC3 lnurlSt (some 150) = (.error .wrongAmountError, lnurlSt, false) :=
  ⟨⟨by decide, by decide, by decide, by decide, by decide, by decide, by decide⟩,
    claim_C3 oracleC3 lnurlSt "lnurlx".data ⟨100, 5000, "cb".data⟩ 150 "inv".data (some 99)
      (by decide) (by decide) (by decide) (by decide) (by decide) (by decide) (by decide)⟩

/-! ## Multiline batch claims -/

/-- Loop invariant of the batch parser: every line yields exactly one
output or one error, and the max flag is exactly the presence of a
max-sentinel amount among the outputs. -/
theorem mlLoop_spec (ctx : Ctx) : ∀ (i : ℕ) (lines : List Str),
    ((mlLoop ctx i lines).outputs.length + (mlLoop ctx i lines).errors.length = lines.length) ∧
    ((mlLoop ctx i lines).is_max
      = (mlLoop ctx i lines).outputs.any (fun o => pyAmountMax ctx o.value)) := by
  intro i lines
  induction lines generalizing i with
  | nil => simp [mlLoop]
  | cons l ls ih =>
    obtain ⟨ih1, ih2⟩ := ih (i + 1)
    cases hp : parse_address_and_amount ctx l with
    | error e =>
      constructor
      · simp only [mlLoop, hp, List.length_cons]
        omega
      · simp only [mlLoop, hp]
        exact ih2
    | ok o =>
      by_cases hm : pyAmountMax ctx o.value
      · constructor
        · simp only [mlLoop, hp, hm, if_true, List.length_cons]
          omega
        · simp only [mlLoop, hp, hm, if_true, List.any_cons]
          simp [hm]
      · constructor
        · simp only [mlLoop, hp, hm, if_false, List.length_cons]
          simp only [Bool.false_eq_true, if_false, List.length_cons]
          omega
        · simp only [mlLoop, hp, hm]
          simp only [Bool.false_eq_true, if_false, List.any_cons]
          simp [hm, ih2]

/-- C5: the three-line batch with a bad middle line classifies as
multiline with two outputs and exactly one recorded line error at index
one; and in general every non-empty line of a batch contributes exactly
one output or one recorded error, so a failing line never aborts the
parsing of the remaining lines. -/
theorem claim_C5_multiline_partial_failure :
    parse oracleAddr initState "addr1,1.0\nbadline\naddr2,2.0".data
      = .ok { initState with
              _type := some "multiline".data,
              error := some (.multilineErrs [⟨"badline".data, .notTwoFields, 1, true⟩]),
              multiline_outputs := some [⟨some [81], .int 100000000⟩,
                                         ⟨some [82], .int 200000000⟩] } ∧
    ∀ (ctx : Ctx) (text : Str),
      ((_parse_as_multiline ctx text).outputs).length
          + ((_parse_as_multiline ctx text).errors).length
        = ((splitOnChar '\n' text).filter (· ≠ [])).length := by
  constructor
  · decide
  · intro ctx text
    simp only [_parse_as_multiline]
    exact (mlLoop_spec ctx 0 _).1

/-- C8 counterexample: the value the batch parser returns to its caller is
the outputs list alone.  Two inputs with different recorded line errors
produce identical return values, so neither the error list nor any flag is
part of the return value; and an input with a max-sentinel line sets the
internal flag while the return value is still just the outputs. -/
theorem claim_C8_counterexample :
    multilineReturn oracleAddr "addr1,1.0\nbadline".data
      = multilineReturn oracleAddr "addr1,1.0".data ∧
    (_parse_as_multiline oracleAddr "addr1,1.0\nbadline".data).errors ≠ [] ∧
    (_parse_as_multiline oracleAddr "addr1,1.0".data).errors = [] ∧
    (_parse_as_multiline oracleAddr "addr1,!".data).is_max = true ∧
    multilineReturn oracleAddr "addr1,!".data = [⟨some [81], .maxStr ['!']⟩] :=
  ⟨by decide, by decide, by decide, by decide, by decide⟩

/-- C8 as amended: the internal requires-full-balance flag of the batch
parser is set exactly when some successfully parsed line's amount is the
max-spend sentinel (equivalently, when some returned output carries it);
the flag is computed but not part of the return value. -/
theorem claim_C8_is_max_iff (ctx : Ctx) (text : Str) :
    (_parse_as_multiline ctx text).is_max
      = ((_parse_as_multiline ctx text).outputs.any (fun o => pyAmountMax ctx o.value)) := by
  simp only [_parse_as_multiline]
  exact (mlLoop_spec ctx 0 _).2

end Electrum
